import Mathlib

/-!
Verification of the CRM intake normalization and confirmation pipeline.

The TypeScript services are shallowly embedded as executable Lean functions
over `List Char` texts and a small JSON value type.  Regex-based string
transforms are realised as explicit scanners with the same left-to-right,
leftmost-alternative matching discipline as the JavaScript engine; the JS
`\w` class is ASCII alphanumerics plus underscore, and word boundaries are
positions where the word-ness of the two neighbouring characters differs.
-/

namespace CRM

/-- Texts are lists of characters. -/
abbrev Txt := List Char

/-- The JS `\w` class: ASCII letters, digits and underscore. -/
def isWordChar (c : Char) : Bool := c.isAlphanum || c = '_'

/-- The JS `\s` class (whitespace), restricted to the characters that have a
fixed code point: ASCII whitespace plus the Unicode space characters. -/
def jsSpace (c : Char) : Bool :=
  c = ' ' || c = '\t' || c = '\n' || c = '\r' || c = '\x0b' || c = '\x0c' ||
  c = '\u00A0' || c = '\u1680' ||
  ('\u2000' ≤ c && c ≤ '\u200A') ||
  c = '\u2028' || c = '\u2029' || c = '\u202F' || c = '\u205F' ||
  c = '\u3000' || c = '\uFEFF'

/-- Arabic-Indic digit to Western digit, the character map of
`arabicToEnglishDigits`. -/
def adChar (c : Char) : Char :=
  if c = '٠' then '0' else if c = '١' then '1' else if c = '٢' then '2'
  else if c = '٣' then '3' else if c = '٤' then '4' else if c = '٥' then '5'
  else if c = '٦' then '6' else if c = '٧' then '7' else if c = '٨' then '8'
  else if c = '٩' then '9' else c

/-- `arabicToEnglishDigits` from intake-processing.service. -/
def arabicToEnglishDigits (l : Txt) : Txt := l.map adChar

/-- Case-insensitive literal token match: if `l` starts with `tok`
(compared through `Char.toLower`), return the rest of `l`. -/
def stripTokCI : Txt → Txt → Option Txt
  | [], l => some l
  | _ :: _, [] => none
  | t :: ts, c :: cs => if c.toLower = t then stripTokCI ts cs else none

/-- True when the next character (if any) is not a word character: the tail
half of a `\b` check after a token ending in a word character. -/
def noWordAhead : Txt → Bool
  | [] => true
  | c :: _ => !isWordChar c

/-- One alternative of `\b(egp|le|l\.e)\b`: token characters then the closing
word boundary. -/
def tryTokB (tok : Txt) (l : Txt) : Option Txt :=
  match stripTokCI tok l with
  | some r => if noWordAhead r then some r else none
  | none => none

/-- The alternation `(egp|le|l\.e)` with its trailing `\b`, tried in the
source order of the alternatives. -/
def tryCurrencyTok (l : Txt) : Option Txt :=
  match tryTokB ['e', 'g', 'p'] l with
  | some r => some r
  | none =>
    match tryTokB ['l', 'e'] l with
    | some r => some r
    | none => tryTokB ['l', '.', 'e'] l

theorem dropWhile_len_le (p : Char → Bool) (l : Txt) :
    (l.dropWhile p).length ≤ l.length :=
  (List.dropWhile_sublist p).length_le

theorem stripTokCI_length {t l r : Txt} (h : stripTokCI t l = some r) :
    r.length + t.length = l.length := by
  induction t generalizing l with
  | nil => simp [stripTokCI] at h; simp [h]
  | cons a ts ih =>
    match l with
    | [] => simp [stripTokCI] at h
    | c :: cs =>
      simp only [stripTokCI] at h
      split at h
      · have := ih h; simp at this ⊢; omega
      · exact absurd h (by simp)

theorem tryTokB_length {tok l r : Txt} (h : tryTokB tok l = some r) :
    r.length + tok.length = l.length := by
  unfold tryTokB at h
  split at h
  · split at h
    · cases h; exact stripTokCI_length (by assumption)
    · exact absurd h (by simp)
  · exact absurd h (by simp)

theorem tryCurrencyTok_length {l r : Txt} (h : tryCurrencyTok l = some r) :
    r.length < l.length := by
  unfold tryCurrencyTok at h
  split at h
  · cases h; have := tryTokB_length (by assumption); simp at this; omega
  · split at h
    · cases h; have := tryTokB_length (by assumption); simp at this; omega
    · have := tryTokB_length h; simp at this; omega

/-- The global replace of `/\b(egp|le|l\.e)\b/gi` by `"egp"`.  The flag is
true when the previous character of the original text is a word character,
in which case no match can start here. -/
def currencyLatin (wb : Bool) (l : Txt) : Txt :=
  match l with
  | [] => []
  | c :: cs =>
    if wb then c :: currencyLatin (isWordChar c) cs
    else
      match h : tryCurrencyTok (c :: cs) with
      | some rest => 'e' :: 'g' :: 'p' :: currencyLatin true rest
      | none => c :: currencyLatin (isWordChar c) cs
termination_by l.length
decreasing_by
  all_goals first
    | exact tryCurrencyTok_length h
    | exact Nat.lt_succ_self _

/-- True when the next character (if any) is JS whitespace, or the end of the
text: the lookahead `(?=\s|$)`. -/
def spaceOrEndAhead : Txt → Bool
  | [] => true
  | c :: _ => jsSpace c

/-- The match attempt of `(جنيه|ج\.?)(?=\s|$)` at the head of `l`: greedy
alternatives in source order, each followed by the uncommitted lookahead; on
success the unconsumed rest (the lookahead character included) is returned. -/
def tryArabicTok : Txt → Option Txt
  | 'ج' :: 'ن' :: 'ي' :: 'ه' :: r => if spaceOrEndAhead r then some r else none
  | 'ج' :: '.' :: r => if spaceOrEndAhead r then some r else none
  | 'ج' :: r => if spaceOrEndAhead r then some r else none
  | _ => none

theorem tryArabicTok_length {l r : Txt} (h : tryArabicTok l = some r) :
    r.length < l.length := by
  unfold tryArabicTok at h
  split at h <;> first
    | (split at h <;> simp_all; omega)
    | simp_all

/-- The global replace of `/(جنيه|ج\.?)(?=\s|$)/gi` by `"egp"`. -/
def currencyArabic (l : Txt) : Txt :=
  match l with
  | [] => []
  | c :: cs =>
    match h : tryArabicTok (c :: cs) with
    | some rest => 'e' :: 'g' :: 'p' :: currencyArabic rest
    | none => c :: currencyArabic cs
termination_by l.length
decreasing_by
  all_goals first
    | exact tryArabicTok_length h
    | exact Nat.lt_succ_self _

/-- `normalizeCurrencyTokens`: the Latin replace, then the Arabic replace on
its result. -/
def normalizeCurrencyTokens (l : Txt) : Txt := currencyArabic (currencyLatin false l)

/-- The punctuation class `[!?.,،؛]`. -/
def isPunct (c : Char) : Bool :=
  c = '!' || c = '?' || c = '.' || c = ',' || c = '،' || c = '؛'

/-- `normalizePunctuation`: each run of two or more punctuation characters is
replaced by its first character. -/
def punctCollapse (l : Txt) : Txt :=
  match l with
  | [] => []
  | [c] => [c]
  | c :: d :: cs =>
    if isPunct c && isPunct d then c :: punctCollapse ((d :: cs).dropWhile isPunct)
    else c :: punctCollapse (d :: cs)
termination_by l.length
decreasing_by
  all_goals first
    | exact Nat.lt_succ_of_le (dropWhile_len_le _ _)
    | exact Nat.lt_succ_self _

/-- The replace of `/\s+/g` by a single space, as a one-pass scanner: `run`
records whether the previous character belonged to the current whitespace
run (whose first character already emitted the single `' '`). -/
def wsGo (run : Bool) : Txt → Txt
  | [] => []
  | c :: cs =>
    if jsSpace c then (if run then wsGo true cs else ' ' :: wsGo true cs)
    else c :: wsGo false cs

/-- The replace of `/\s+/g` by a single space. -/
def wsCollapse (l : Txt) : Txt := wsGo false l

/-- `String.prototype.trim`: strip leading and trailing JS whitespace. -/
def jsTrim (l : Txt) : Txt := ((l.dropWhile jsSpace).reverse.dropWhile jsSpace).reverse

/-- `normalizeDetectedText` from intake-processing.service: digits, currency,
punctuation, whitespace collapse, trim. -/
def normalizeDetectedText (l : Txt) : Txt :=
  jsTrim (wsCollapse (punctCollapse (normalizeCurrencyTokens (arabicToEnglishDigits l))))

/-! ### Character-set and fixed-point lemmas for the normalizer stages -/

theorem currencyLatin_nil (wb : Bool) : currencyLatin wb [] = [] := by rw [currencyLatin]

theorem currencyArabic_nil : currencyArabic [] = [] := by rw [currencyArabic]

theorem punctCollapse_nil : punctCollapse [] = [] := by rw [punctCollapse]

theorem punctCollapse_one (c : Char) : punctCollapse [c] = [c] := by rw [punctCollapse]

theorem wsCollapse_nil : wsCollapse [] = [] := rfl

theorem adChar_eq_or (c : Char) :
    adChar c = c ∨ adChar c ∈ ['0', '1', '2', '3', '4', '5', '6', '7', '8', '9'] := by
  unfold adChar
  split_ifs <;> simp

theorem adChar_digit_fix :
    ∀ d ∈ ['0', '1', '2', '3', '4', '5', '6', '7', '8', '9'], adChar d = d := by decide

theorem adChar_fix (c : Char) : adChar (adChar c) = adChar c := by
  rcases adChar_eq_or c with h | h
  · rw [h]; exact h
  · exact adChar_digit_fix _ h

theorem arabicToEnglishDigits_fixed {l : Txt} (h : ∀ c ∈ l, adChar c = c) :
    arabicToEnglishDigits l = l := by
  induction l with
  | nil => rfl
  | cons c cs ih =>
    show adChar c :: arabicToEnglishDigits cs = c :: cs
    rw [h c (List.mem_cons_self _ _), ih fun d hd => h d (List.mem_cons_of_mem _ hd)]

theorem arabicToEnglishDigits_mem {l : Txt} {c : Char} (h : c ∈ arabicToEnglishDigits l) :
    adChar c = c := by
  simp only [arabicToEnglishDigits, List.mem_map] at h
  obtain ⟨d, _, rfl⟩ := h
  exact adChar_fix d

theorem stripTokCI_mem {t l r : Txt} (h : stripTokCI t l = some r) : ∀ c ∈ r, c ∈ l := by
  induction t generalizing l with
  | nil => simp [stripTokCI] at h; simp [h]
  | cons a ts ih =>
    match l with
    | [] => simp [stripTokCI] at h
    | b :: bs =>
      simp only [stripTokCI] at h
      split at h
      · exact fun c hc => List.mem_cons_of_mem _ (ih h c hc)
      · simp at h

theorem tryTokB_mem {tok l r : Txt} (h : tryTokB tok l = some r) : ∀ c ∈ r, c ∈ l := by
  unfold tryTokB at h
  split at h
  · split at h
    · cases h; exact stripTokCI_mem (by assumption)
    · simp at h
  · simp at h

theorem tryCurrencyTok_mem {l r : Txt} (h : tryCurrencyTok l = some r) : ∀ c ∈ r, c ∈ l := by
  unfold tryCurrencyTok at h
  split at h
  · cases h; exact tryTokB_mem (by assumption)
  · split at h
    · cases h; exact tryTokB_mem (by assumption)
    · exact tryTokB_mem h

theorem tryArabicTok_mem {l r : Txt} (h : tryArabicTok l = some r) : ∀ c ∈ r, c ∈ l := by
  unfold tryArabicTok at h
  split at h <;> (try split at h) <;> simp_all <;> intro c hc <;> subst h <;> simp [hc]

theorem currencyLatin_mem {wb : Bool} {l : Txt} :
    ∀ c ∈ currencyLatin wb l, c ∈ l ∨ c = 'e' ∨ c = 'g' ∨ c = 'p' := by
  induction wb, l using currencyLatin.induct with
  | case1 w => simp [currencyLatin_nil]
  | case2 c cs ih =>
    rw [currencyLatin]
    simp only [if_true]
    intro d hd
    rcases List.mem_cons.mp hd with rfl | hd
    · exact Or.inl (List.mem_cons_self _ _)
    · rcases ih d hd with h | h
      · exact Or.inl (List.mem_cons_of_mem _ h)
      · exact Or.inr h
  | case3 wb c cs hwb rest hm ih =>
    have hw : wb = false := by simpa using hwb
    subst hw
    rw [currencyLatin]
    simp only [Bool.false_eq_true, if_false]
    split
    · rename_i r hr
      rw [hm] at hr
      cases hr
      intro d hd
      rcases List.mem_cons.mp hd with rfl | hd
      · simp
      rcases List.mem_cons.mp hd with rfl | hd
      · simp
      rcases List.mem_cons.mp hd with rfl | hd
      · simp
      rcases ih d hd with h | h
      · exact Or.inl (tryCurrencyTok_mem hm d h)
      · exact Or.inr h
    · rename_i hr
      rw [hm] at hr
      cases hr
  | case4 wb c cs hwb hm ih =>
    have hw : wb = false := by simpa using hwb
    subst hw
    rw [currencyLatin]
    simp only [Bool.false_eq_true, if_false]
    split
    · rename_i r hr
      rw [hm] at hr
      cases hr
    · intro d hd
      rcases List.mem_cons.mp hd with rfl | hd
      · exact Or.inl (List.mem_cons_self _ _)
      · rcases ih d hd with h | h
        · exact Or.inl (List.mem_cons_of_mem _ h)
        · exact Or.inr h

theorem currencyArabic_mem {l : Txt} :
    ∀ c ∈ currencyArabic l, c ∈ l ∨ c = 'e' ∨ c = 'g' ∨ c = 'p' := by
  induction l using currencyArabic.induct with
  | case1 => simp [currencyArabic_nil]
  | case2 c cs rest hm ih =>
    rw [currencyArabic]
    split
    · rename_i r hr
      rw [hm] at hr
      cases hr
      intro d hd
      rcases List.mem_cons.mp hd with rfl | hd
      · simp
      rcases List.mem_cons.mp hd with rfl | hd
      · simp
      rcases List.mem_cons.mp hd with rfl | hd
      · simp
      rcases ih d hd with h | h
      · exact Or.inl (tryArabicTok_mem hm d h)
      · exact Or.inr h
    · rename_i hr
      rw [hm] at hr
      cases hr
  | case3 c cs hm ih =>
    rw [currencyArabic]
    split
    · rename_i r hr
      rw [hm] at hr
      cases hr
    · intro d hd
      rcases List.mem_cons.mp hd with rfl | hd
      · exact Or.inl (List.mem_cons_self _ _)
      · rcases ih d hd with h | h
        · exact Or.inl (List.mem_cons_of_mem _ h)
        · exact Or.inr h

theorem punctCollapse_mem {l : Txt} : ∀ c ∈ punctCollapse l, c ∈ l := by
  induction l using punctCollapse.induct with
  | case1 => simp [punctCollapse_nil]
  | case2 c => simp [punctCollapse_one]
  | case3 c d cs hp ih =>
    rw [punctCollapse]
    simp only [hp, if_true]
    intro e he
    rcases List.mem_cons.mp he with rfl | he
    · exact List.mem_cons_self _ _
    · exact List.mem_cons_of_mem _ ((List.dropWhile_sublist isPunct).subset (ih e he))
  | case4 c d cs hp ih =>
    rw [punctCollapse]
    simp only [hp, if_false]
    intro e he
    rcases List.mem_cons.mp he with rfl | he
    · exact List.mem_cons_self _ _
    · exact List.mem_cons_of_mem _ (ih e he)

theorem wsGo_mem {l : Txt} : ∀ run, ∀ c ∈ wsGo run l, c ∈ l ∨ c = ' ' := by
  induction l with
  | nil => simp [wsGo]
  | cons c cs ih =>
    intro run d hd
    rw [wsGo] at hd
    by_cases hsp : jsSpace c
    · simp only [hsp, if_true] at hd
      cases run with
      | false =>
        simp only [Bool.false_eq_true, if_false] at hd
        rcases List.mem_cons.mp hd with rfl | hd
        · exact Or.inr rfl
        · rcases ih true d hd with h | h
          · exact Or.inl (List.mem_cons_of_mem _ h)
          · exact Or.inr h
      | true =>
        simp only [if_true] at hd
        rcases ih true d hd with h | h
        · exact Or.inl (List.mem_cons_of_mem _ h)
        · exact Or.inr h
    · simp only [hsp, if_false] at hd
      rcases List.mem_cons.mp hd with rfl | hd
      · exact Or.inl (List.mem_cons_self _ _)
      · rcases ih false d hd with h | h
        · exact Or.inl (List.mem_cons_of_mem _ h)
        · exact Or.inr h

theorem wsCollapse_mem {l : Txt} : ∀ c ∈ wsCollapse l, c ∈ l ∨ c = ' ' :=
  wsGo_mem false

theorem jsTrim_decomp (l : Txt) : ∃ s t, s ++ (jsTrim l ++ t) = l := by
  refine ⟨l.takeWhile jsSpace,
    ((l.dropWhile jsSpace).reverse.takeWhile jsSpace).reverse, ?_⟩
  have h1 : jsTrim l ++ ((l.dropWhile jsSpace).reverse.takeWhile jsSpace).reverse
      = l.dropWhile jsSpace := by
    unfold jsTrim
    rw [← List.reverse_append, List.takeWhile_append_dropWhile, List.reverse_reverse]
  rw [h1, List.takeWhile_append_dropWhile]

theorem jsTrim_mem {l : Txt} : ∀ c ∈ jsTrim l, c ∈ l := by
  obtain ⟨s, t, h⟩ := jsTrim_decomp l
  intro c hc
  rw [← h]
  simp [hc]

/-! ### Adjacent-pair invariants -/

/-- No two adjacent characters both satisfy `p`. -/
def noTwo (p : Char → Bool) : Txt → Prop
  | [] => True
  | [_] => True
  | c :: d :: cs => ¬(p c = true ∧ p d = true) ∧ noTwo p (d :: cs)

theorem noTwo_tail {p : Char → Bool} {c : Char} {l : Txt} (h : noTwo p (c :: l)) :
    noTwo p l := by
  match l with
  | [] => trivial
  | d :: cs => exact h.2

theorem noTwo_cons_of {p : Char → Bool} {c : Char} {l : Txt}
    (hhd : ∀ d ∈ l.head?, ¬(p c = true ∧ p d = true)) (h : noTwo p l) :
    noTwo p (c :: l) := by
  match l with
  | [] => trivial
  | d :: cs => exact ⟨hhd d rfl, h⟩

theorem noTwo_app_left {p : Char → Bool} {xs ys : Txt} (h : noTwo p (xs ++ ys)) :
    noTwo p xs := by
  induction xs with
  | nil => trivial
  | cons a xs ih =>
    match xs with
    | [] => trivial
    | b :: xs2 => exact ⟨h.1, ih h.2⟩

theorem noTwo_app_right {p : Char → Bool} {xs ys : Txt} (h : noTwo p (xs ++ ys)) :
    noTwo p ys := by
  induction xs with
  | nil => exact h
  | cons a xs ih => exact ih (noTwo_tail h)

theorem dropWhile_head_false {p : Char → Bool} {l r : Txt} {c : Char}
    (h : l.dropWhile p = c :: r) : p c = false := by
  induction l with
  | nil => simp [List.dropWhile] at h
  | cons a as ih =>
    rw [List.dropWhile_cons] at h
    split at h
    · exact ih h
    · cases h
      rename_i hpa
      simpa using hpa

theorem dropWhile_self_idem (p : Char → Bool) (l : Txt) :
    (l.dropWhile p).dropWhile p = l.dropWhile p := by
  match hd : l.dropWhile p with
  | [] => simp
  | c :: r =>
    rw [List.dropWhile_cons]
    simp [dropWhile_head_false hd]

/-! ### Punctuation collapse: output invariant and fixed point -/

theorem punctCollapse_head (l : Txt) : (punctCollapse l).head? = l.head? := by
  induction l using punctCollapse.induct with
  | case1 => simp [punctCollapse_nil]
  | case2 c => simp [punctCollapse_one]
  | case3 c d cs hp ih => rw [punctCollapse]; simp [hp]
  | case4 c d cs hp ih => rw [punctCollapse]; simp [hp]

theorem punctCollapse_noTwo (l : Txt) : noTwo isPunct (punctCollapse l) := by
  induction l using punctCollapse.induct with
  | case1 => rw [punctCollapse_nil]; trivial
  | case2 c => rw [punctCollapse_one]; trivial
  | case3 c d cs hp ih =>
    rw [punctCollapse]
    simp only [hp, if_true]
    refine noTwo_cons_of ?_ ih
    intro e he
    rw [punctCollapse_head] at he
    match hdw : (d :: cs).dropWhile isPunct with
    | [] => rw [hdw] at he; simp at he
    | f :: r =>
      rw [hdw] at he
      simp only [List.head?_cons, Option.mem_def, Option.some.injEq] at he
      subst he
      have := dropWhile_head_false hdw
      simp [this]
  | case4 c d cs hp ih =>
    rw [punctCollapse]
    simp only [hp, if_false]
    refine noTwo_cons_of ?_ ih
    intro e he
    rw [punctCollapse_head] at he
    simp only [List.head?_cons, Option.mem_def, Option.some.injEq] at he
    subst he
    intro hcd
    exact hp (by simp [hcd.1, hcd.2])

theorem punctCollapse_fixed (l : Txt) : noTwo isPunct l → punctCollapse l = l := by
  induction l using punctCollapse.induct with
  | case1 => intro _; exact punctCollapse_nil
  | case2 c => intro _; exact punctCollapse_one c
  | case3 c d cs hp ih =>
    intro h
    exact absurd (by simpa using hp) h.1
  | case4 c d cs hp ih =>
    intro h
    rw [punctCollapse]
    simp [hp, ih (noTwo_tail h)]

/-! ### Whitespace collapse: output invariants and fixed point -/

theorem wsGo_true_head {l : Txt} : ∀ c ∈ (wsGo true l).head?, jsSpace c = false := by
  induction l with
  | nil => simp [wsGo]
  | cons c cs ih =>
    rw [wsGo]
    by_cases hsp : jsSpace c
    · simpa [hsp] using ih
    · simp [hsp]

theorem wsGo_false_head (l : Txt) :
    (wsGo false l).head? = l.head?.map (fun c => if jsSpace c then ' ' else c) := by
  cases l with
  | nil => simp [wsGo]
  | cons c cs =>
    rw [wsGo]
    by_cases hsp : jsSpace c <;> simp [hsp]

theorem wsGo_noTwo_space (l : Txt) : ∀ run, noTwo jsSpace (wsGo run l) := by
  induction l with
  | nil => intro run; rw [wsGo]; trivial
  | cons c cs ih =>
    intro run
    rw [wsGo]
    by_cases hsp : jsSpace c
    · simp only [hsp, if_true]
      cases run with
      | true => simpa using ih true
      | false =>
        simp only [Bool.false_eq_true, if_false]
        refine noTwo_cons_of ?_ (ih true)
        intro d hd
        have := wsGo_true_head d hd
        simp [this]
    · simp only [hsp, if_false]
      refine noTwo_cons_of ?_ (ih false)
      intro d _
      simp [hsp]

theorem wsGo_noTwo_pres {p : Char → Bool} (hp : p ' ' = false) (l : Txt) :
    ∀ run, noTwo p l → noTwo p (wsGo run l) := by
  induction l with
  | nil => intro run _; rw [wsGo]; trivial
  | cons c cs ih =>
    intro run h
    rw [wsGo]
    by_cases hsp : jsSpace c
    · simp only [hsp, if_true]
      cases run with
      | true => simpa using ih true (noTwo_tail h)
      | false =>
        simp only [Bool.false_eq_true, if_false]
        refine noTwo_cons_of ?_ (ih true (noTwo_tail h))
        intro d _
        simp [hp]
    · simp only [hsp, if_false]
      refine noTwo_cons_of ?_ (ih false (noTwo_tail h))
      intro d hd
      rw [wsGo_false_head] at hd
      match cs with
      | [] => simp at hd
      | e :: cs2 =>
        simp only [List.head?_cons, Option.mem_def] at hd
        have hd2 : (if jsSpace e then ' ' else e) = d := by
          simpa using hd
        by_cases hse : jsSpace e
        · rw [if_pos hse] at hd2
          subst hd2
          intro hcd
          exact absurd hcd.2 (by simp [hp])
        · rw [if_neg hse] at hd2
          subst hd2
          exact h.1

/-- Every JS-space character of the collapsed output is the plain space. -/
def spacesOk (l : Txt) : Prop := ∀ c ∈ l, jsSpace c = true → c = ' '

theorem wsGo_spacesOk (l : Txt) : ∀ run, spacesOk (wsGo run l) := by
  induction l with
  | nil => intro run c hc; rw [wsGo] at hc; simp at hc
  | cons c cs ih =>
    intro run d hd
    rw [wsGo] at hd
    by_cases hsp : jsSpace c
    · simp only [hsp, if_true] at hd
      cases run with
      | true => exact ih true d (by simpa using hd)
      | false =>
        simp only [Bool.false_eq_true, if_false] at hd
        rcases List.mem_cons.mp hd with rfl | hd
        · intro _; rfl
        · exact ih true d hd
    · simp only [hsp, if_false] at hd
      rcases List.mem_cons.mp hd with rfl | hd
      · intro hc; exact absurd hc (by simp [hsp])
      · exact ih false d hd

theorem wsGo_true_eq (l : Txt) (hl : ∀ c ∈ l.head?, jsSpace c = false) :
    wsGo true l = wsGo false l := by
  cases l with
  | nil => rfl
  | cons c cs =>
    have := hl c rfl
    rw [wsGo, wsGo]
    simp [this]

theorem wsGo_false_fixed (l : Txt) (hs : spacesOk l) (hn : noTwo jsSpace l) :
    wsGo false l = l := by
  induction l with
  | nil => rfl
  | cons c cs ih =>
    rw [wsGo]
    by_cases hsp : jsSpace c
    · have hc : c = ' ' := hs c (List.mem_cons_self _ _) hsp
      simp only [hsp, if_true, Bool.false_eq_true, if_false]
      rw [hc]
      match cs with
      | [] => rfl
      | d :: cs2 =>
        have hd : jsSpace d = false := by
          rcases Bool.eq_false_or_eq_true (jsSpace d) with h | h
          · exact absurd ⟨hsp, h⟩ hn.1
          · exact h
        rw [wsGo_true_eq (d :: cs2) (by intro e he; simp at he; subst he; exact hd)]
        rw [ih (fun e he hse => hs e (List.mem_cons_of_mem _ he) hse) (noTwo_tail hn)]
    · simp [hsp, ih (fun e he hse => hs e (List.mem_cons_of_mem _ he) hse) (noTwo_tail hn)]

theorem wsCollapse_fixed (l : Txt) (hs : spacesOk l) (hn : noTwo jsSpace l) :
    wsCollapse l = l := wsGo_false_fixed l hs hn

/-! ### Trim: idempotence -/

theorem jsTrim_idem (l : Txt) : jsTrim (jsTrim l) = jsTrim l := by
  unfold jsTrim
  have hsplit : l.dropWhile jsSpace =
      ((l.dropWhile jsSpace).reverse.dropWhile jsSpace).reverse ++
        ((l.dropWhile jsSpace).reverse.takeWhile jsSpace).reverse := by
    rw [← List.reverse_append, List.takeWhile_append_dropWhile, List.reverse_reverse]
  have hfix : (((l.dropWhile jsSpace).reverse.dropWhile jsSpace).reverse).dropWhile jsSpace
      = ((l.dropWhile jsSpace).reverse.dropWhile jsSpace).reverse := by
    match hr : ((l.dropWhile jsSpace).reverse.dropWhile jsSpace).reverse with
    | [] => simp
    | c :: r =>
      have : l.dropWhile jsSpace = c :: (r ++ ((l.dropWhile jsSpace).reverse.takeWhile jsSpace).reverse) := by
        conv_lhs => rw [hsplit, hr]
        simp only [List.cons_append]
      have hc : jsSpace c = false := dropWhile_head_false this
      rw [List.dropWhile_cons]
      simp [hc]
  rw [hfix]
  rw [List.reverse_reverse, dropWhile_self_idem]

/-! ### The normalizer image is a fixed point of every stage but currency -/

theorem ndt_stage_fixed (x : Txt) :
    arabicToEnglishDigits (normalizeDetectedText x) = normalizeDetectedText x ∧
    punctCollapse (normalizeDetectedText x) = normalizeDetectedText x ∧
    wsCollapse (normalizeDetectedText x) = normalizeDetectedText x ∧
    jsTrim (normalizeDetectedText x) = normalizeDetectedText x := by
  have hy : normalizeDetectedText x =
      jsTrim (wsCollapse (punctCollapse (normalizeCurrencyTokens (arabicToEnglishDigits x)))) := rfl
  refine ⟨?_, ?_, ?_, ?_⟩
  · refine arabicToEnglishDigits_fixed ?_
    intro c hc
    rw [hy] at hc
    have h1 := jsTrim_mem c hc
    rcases wsCollapse_mem c h1 with h2 | h2
    · have h3 := punctCollapse_mem c h2
      rcases currencyArabic_mem c h3 with h4 | h4
      · rcases currencyLatin_mem c h4 with h5 | h5
        · exact arabicToEnglishDigits_mem h5
        · rcases h5 with rfl | rfl | rfl <;> decide
      · rcases h4 with rfl | rfl | rfl <;> decide
    · subst h2; decide
  · refine punctCollapse_fixed _ ?_
    rw [hy]
    obtain ⟨s, t, hst⟩ := jsTrim_decomp
      (wsCollapse (punctCollapse (normalizeCurrencyTokens (arabicToEnglishDigits x))))
    have hws : noTwo isPunct
        (wsCollapse (punctCollapse (normalizeCurrencyTokens (arabicToEnglishDigits x)))) :=
      wsGo_noTwo_pres (by decide) _ false (punctCollapse_noTwo _)
    rw [← hst] at hws
    exact noTwo_app_left (noTwo_app_right hws)
  · refine wsCollapse_fixed _ ?_ ?_
    · intro c hc hsp
      rw [hy] at hc
      exact wsGo_spacesOk _ false c (jsTrim_mem c hc) hsp
    · rw [hy]
      obtain ⟨s, t, hst⟩ := jsTrim_decomp
        (wsCollapse (punctCollapse (normalizeCurrencyTokens (arabicToEnglishDigits x))))
      have hws : noTwo jsSpace
          (wsCollapse (punctCollapse (normalizeCurrencyTokens (arabicToEnglishDigits x)))) :=
        wsGo_noTwo_space _ false
      rw [← hst] at hws
      exact noTwo_app_left (noTwo_app_right hws)
  · rw [hy, jsTrim_idem]

/-! ### Claim C3: idempotence of the text normalizer -/

unseal currencyLatin currencyArabic punctCollapse in
/-- C3, counterexample: the text normalizer is not idempotent.  On the input
`"l..e"` one application collapses the punctuation run to yield `"l.e"`,
and a second application then matches the currency token `l\.e` and
rewrites it to `"egp"`. -/
theorem normalizeDetectedText_not_idempotent :
    normalizeDetectedText (normalizeDetectedText ['l', '.', '.', 'e']) ≠
      normalizeDetectedText ['l', '.', '.', 'e'] := by decide

/-- C3 (amended): `normalizeDetectedText` is idempotent on exactly the inputs
whose normal form is a fixed point of the currency-token replace — the digit
map, punctuation collapse, whitespace collapse and trim are always fixed on
the image, and only a punctuation collapse that manufactures a new currency
token (`"l..e"`, `"ج.."`) breaks idempotence. -/
theorem normalizeDetectedText_idem_of_currency_fixed (x : Txt)
    (h : normalizeCurrencyTokens (normalizeDetectedText x) = normalizeDetectedText x) :
    normalizeDetectedText (normalizeDetectedText x) = normalizeDetectedText x := by
  obtain ⟨h1, h2, h3, h4⟩ := ndt_stage_fixed x
  conv_lhs => rw [normalizeDetectedText]
  rw [h1, h, h2, h3, h4]

unseal currencyLatin currencyArabic punctCollapse in
/-- Witness for the amended C3 theorem at the concrete input `"price 70"`. -/
theorem normalizeDetectedText_idem_witness :
    normalizeDetectedText
        (normalizeDetectedText ['p', 'r', 'i', 'c', 'e', ' ', '7', '0']) =
      normalizeDetectedText ['p', 'r', 'i', 'c', 'e', ' ', '7', '0'] :=
  normalizeDetectedText_idem_of_currency_fixed _ (by decide)

/-! ### Code allocation: `nextCode` over the `crm_code_sequences` table -/

/-- Decimal digit accumulation for `String(n)`; the first argument is
structural fuel, always at least the number itself. -/
def natDigitsF : Nat → Nat → Txt → Txt
  | 0, _, acc => acc
  | fuel + 1, n, acc =>
    if n = 0 then acc else natDigitsF fuel (n / 10) (Nat.digitChar (n % 10) :: acc)

/-- `String(n)` for a natural number. -/
def natToTxt (n : Nat) : Txt := if n = 0 then ['0'] else natDigitsF n n []

/-- `String(next).padStart(5, "0")`. -/
def padStart5 (s : Txt) : Txt := List.replicate (5 - s.length) '0' ++ s

/-- The code minted by `nextCode`: `PREFIX-YEAR-NNNNN`. -/
def formatCode (pre : Txt) (year next : Nat) : Txt :=
  pre ++ '-' :: natToTxt year ++ '-' :: padStart5 (natToTxt next)

/-- The `crm_code_sequences` table: (code_key, year_num) to last_value. -/
abbrev SeqTable := List ((Txt × Nat) × Nat)

/-- `maybeSingle` read of the counter row. -/
def seqFind (tbl : SeqTable) (k : Txt × Nat) : Option Nat :=
  (tbl.find? (fun r => r.1 = k)).map (fun r => r.2)

/-- The `upsert` with conflict target `code_key,year_num`: overwrite the
matching row's `last_value`, or insert a fresh row. -/
def seqUpsert (tbl : SeqTable) (k : Txt × Nat) (v : Nat) : SeqTable :=
  if (tbl.find? (fun r => r.1 = k)).isSome then
    tbl.map (fun r => if r.1 = k then (k, v) else r)
  else tbl ++ [(k, v)]

/-- `nextCode`: read the current value (`existing?.last_value || 0`), add one,
upsert, and format the code. -/
def nextCode (tbl : SeqTable) (pre : Txt) (year : Nat) : Txt × SeqTable :=
  let cur := (seqFind tbl (pre, year)).getD 0
  let next := cur + 1
  (formatCode pre year next, seqUpsert tbl (pre, year) next)

/-- Sequential allocation of `n` codes for one (prefix, year). -/
def seqAlloc (pre : Txt) (year : Nat) : Nat → SeqTable → List Txt × SeqTable
  | 0, tbl => ([], tbl)
  | n + 1, tbl =>
    let r1 := nextCode tbl pre year
    let r2 := seqAlloc pre year n r1.2
    (r1.1 :: r2.1, r2.2)

/-! #### Injectivity of the code format (for a fixed prefix and year) -/

/-- Value of a digit character. -/
def digitVal (c : Char) : Nat := c.toNat - 48

/-- Decimal value of a least-significant-first digit list. -/
def parseLSB : Txt → Nat
  | [] => 0
  | c :: cs => digitVal c + 10 * parseLSB cs

/-- Decimal value of a most-significant-first digit list. -/
def parseMSB (l : Txt) : Nat := parseLSB l.reverse

/-- Least-significant-first digits of `n`. -/
def digitsLSB (n : Nat) : Txt :=
  if n = 0 then [] else Nat.digitChar (n % 10) :: digitsLSB (n / 10)
termination_by n
decreasing_by exact Nat.div_lt_self (Nat.pos_of_ne_zero (by assumption)) (by omega)

theorem natDigitsF_eq :
    ∀ (fuel n : Nat), n ≤ fuel → ∀ acc, natDigitsF fuel n acc = (digitsLSB n).reverse ++ acc := by
  intro fuel
  induction fuel with
  | zero =>
    intro n hn acc
    interval_cases n
    rw [natDigitsF, digitsLSB]
    simp
  | succ fuel ih =>
    intro n hn acc
    by_cases h : n = 0
    · subst h
      rw [natDigitsF, digitsLSB]
      simp
    · rw [natDigitsF, digitsLSB]
      simp only [h, if_false]
      have hdiv : n / 10 ≤ fuel := by
        have := Nat.div_lt_self (Nat.pos_of_ne_zero h) (show 1 < 10 by omega)
        omega
      rw [ih (n / 10) hdiv]
      simp

theorem digitVal_digitChar : ∀ r < 10, digitVal (Nat.digitChar r) = r := by decide

theorem parseLSB_digitsLSB (n : Nat) : parseLSB (digitsLSB n) = n := by
  induction n using Nat.strong_induction_on with
  | _ n ih =>
    by_cases h : n = 0
    · subst h
      rw [digitsLSB]
      simp [parseLSB]
    · rw [digitsLSB]
      simp only [h, if_false, parseLSB]
      rw [ih (n / 10) (Nat.div_lt_self (Nat.pos_of_ne_zero h) (by omega))]
      rw [digitVal_digitChar (n % 10) (Nat.mod_lt _ (by omega))]
      omega

theorem parseLSB_append (a b : Txt) :
    parseLSB (a ++ b) = parseLSB a + 10 ^ a.length * parseLSB b := by
  induction a with
  | nil => simp [parseLSB]
  | cons c cs ih =>
    rw [List.cons_append]
    rw [show parseLSB (c :: (cs ++ b)) = digitVal c + 10 * parseLSB (cs ++ b) from rfl]
    rw [show parseLSB (c :: cs) = digitVal c + 10 * parseLSB cs from rfl]
    rw [ih, List.length_cons, pow_succ]
    ring

theorem parseMSB_natToTxt (n : Nat) : parseMSB (natToTxt n) = n := by
  unfold natToTxt
  by_cases h : n = 0
  · subst h; decide
  · simp only [h, if_false]
    rw [natDigitsF_eq n n (le_refl n) []]
    unfold parseMSB
    rw [List.append_nil, List.reverse_reverse]
    exact parseLSB_digitsLSB n

theorem parseLSB_zeros (k : Nat) : parseLSB (List.replicate k '0') = 0 := by
  induction k with
  | zero => rfl
  | succ k ih => simp [List.replicate, parseLSB, ih]; decide

theorem parseMSB_pad (s : Txt) : parseMSB (padStart5 s) = parseMSB s := by
  unfold padStart5 parseMSB
  rw [List.reverse_append, parseLSB_append, List.reverse_replicate, parseLSB_zeros]
  ring

theorem formatCode_inj (pre : Txt) (year : Nat) {a b : Nat}
    (h : formatCode pre year a = formatCode pre year b) : a = b := by
  unfold formatCode at h
  rw [List.append_assoc, List.append_assoc] at h
  have h1 := List.append_cancel_left h
  have h2 := List.append_cancel_left h1
  have h4 : padStart5 (natToTxt a) = padStart5 (natToTxt b) := List.cons_injective h2
  have h5 := congrArg parseMSB h4
  rwa [parseMSB_pad, parseMSB_pad, parseMSB_natToTxt, parseMSB_natToTxt] at h5

theorem seqFind_upsert (k : Txt × Nat) (v : Nat) :
    ∀ tbl : SeqTable, seqFind (seqUpsert tbl k v) k = some v := by
  intro tbl
  induction tbl with
  | nil => simp [seqFind, seqUpsert]
  | cons r rs ih =>
    by_cases hk : r.1 = k
    · simp [seqFind, seqUpsert, List.find?_cons, hk]
    · have hcond : List.find? (fun x => x.1 = k) (r :: rs)
          = List.find? (fun x => x.1 = k) rs :=
        List.find?_cons_of_neg _ (by simp [hk])
      unfold seqFind seqUpsert at ih ⊢
      rw [hcond]
      by_cases hs : (List.find? (fun x : (Txt × Nat) × Nat => x.1 = k) rs).isSome
      · rw [if_pos hs] at ih ⊢
        simp only [List.map_cons]
        rw [List.find?_cons_of_neg _ (by simp [hk])]
        exact ih
      · rw [if_neg hs] at ih ⊢
        simp only [List.cons_append]
        rw [List.find?_cons_of_neg _ (by simp [hk])]
        exact ih

theorem seqAlloc_codes (pre : Txt) (year : Nat) :
    ∀ (n : Nat) (tbl : SeqTable),
      (seqAlloc pre year n tbl).1 =
        (List.range n).map
          (fun i => formatCode pre year ((seqFind tbl (pre, year)).getD 0 + i + 1)) := by
  intro n
  induction n with
  | zero => intro tbl; simp [seqAlloc]
  | succ n ih =>
    intro tbl
    rw [seqAlloc]
    simp only [nextCode]
    rw [ih (seqUpsert tbl (pre, year) ((seqFind tbl (pre, year)).getD 0 + 1))]
    rw [seqFind_upsert]
    rw [List.range_succ_eq_map]
    simp only [List.map_cons, List.map_map, Option.getD_some]
    refine congrArg₂ _ (by norm_num) ?_
    refine List.map_congr_left ?_
    intro i _
    simp only [Function.comp]
    congr 1
    omega

theorem seqAlloc_distinct (pre : Txt) (year : Nat) (n : Nat) (tbl : SeqTable) :
    ((seqAlloc pre year n tbl).1).Pairwise (fun a b => a ≠ b) := by
  rw [seqAlloc_codes]
  refine (List.pairwise_map).mpr ?_
  refine (List.pairwise_lt_range n).imp ?_
  intro i j hij heq
  have := formatCode_inj pre year heq
  omega

/-- Phase of one in-flight `nextCode` call: before the counter read, after
the read (holding the value it saw), or finished (holding the minted code,
the upsert done). -/
inductive AllocPhase where
  | ready : AllocPhase
  | readDone : Nat → AllocPhase
  | finished : Txt → AllocPhase
deriving DecidableEq

/-- Advance one allocator by one step against the shared sequences table:
the read and the upsert of `nextCode` as two separate atomic steps. -/
def allocStep (pre : Txt) (year : Nat) : AllocPhase → SeqTable → AllocPhase × SeqTable
  | .ready, tbl => (.readDone ((seqFind tbl (pre, year)).getD 0), tbl)
  | .readDone cur, tbl =>
    (.finished (formatCode pre year (cur + 1)), seqUpsert tbl (pre, year) (cur + 1))
  | .finished c, tbl => (.finished c, tbl)

/-- Two concurrent `nextCode` calls for the same (prefix, year), driven by a
schedule: `true` advances the first caller, `false` the second. -/
def twoAllocRun (pre : Txt) (year : Nat) :
    List Bool → AllocPhase × AllocPhase × SeqTable → AllocPhase × AllocPhase × SeqTable
  | [], s => s
  | w :: ws, (a, b, tbl) =>
    if w then
      let r := allocStep pre year a tbl
      twoAllocRun pre year ws (r.1, b, r.2)
    else
      let r := allocStep pre year b tbl
      twoAllocRun pre year ws (a, r.1, r.2)

/-- C6, counterexample: under the schedule read-read-upsert-upsert, the two
concurrent allocations for prefix `SALE`, year 2025 both read 0 and both
mint the same code `SALE-2025-00001` — allocation is not duplicate-free
under concurrency, because `nextCode` reads the counter and upserts the
incremented value in two separate store operations. -/
theorem nextCode_concurrent_duplicate :
    (twoAllocRun ['S', 'A', 'L', 'E'] 2025 [true, false, true, false]
        (.ready, .ready, [])).1 =
      (twoAllocRun ['S', 'A', 'L', 'E'] 2025 [true, false, true, false]
        (.ready, .ready, [])).2.1 ∧
    (twoAllocRun ['S', 'A', 'L', 'E'] 2025 [true, false, true, false]
        (.ready, .ready, [])).1 =
      .finished ['S', 'A', 'L', 'E', '-', '2', '0', '2', '5', '-', '0', '0', '0', '0', '1'] := by
  decide

/-- C6 (amended): sequential allocation of `n` codes for one (prefix, year)
starting from any table state yields exactly the codes
`PREFIX-YEAR-<v+1> .. PREFIX-YEAR-<v+n>` (`v` the stored counter, zero-padded
to five digits by `padStart5`), contiguous by construction, and pairwise
distinct; the duplicate-freedom claimed under concurrent execution fails
(see the counterexample). -/
theorem seqAlloc_contiguous_distinct (pre : Txt) (year n : Nat) (tbl : SeqTable) :
    (seqAlloc pre year n tbl).1 =
      (List.range n).map
        (fun i => formatCode pre year ((seqFind tbl (pre, year)).getD 0 + i + 1)) ∧
    ((seqAlloc pre year n tbl).1).Pairwise (fun a b => a ≠ b) :=
  ⟨seqAlloc_codes pre year n tbl, seqAlloc_distinct pre year n tbl⟩

/-! ### Rate limiting (src/lib/rate-limit.ts) -/

/-- One bucket of the in-memory rate-limit map. -/
structure RLEntry where
  count : Nat
  resetAt : Nat
deriving DecidableEq

/-- Result record of `checkRateLimit`. -/
structure RLResult where
  allowed : Bool
  remaining : Nat
  retryAfterMs : Option Nat
deriving DecidableEq

/-- `checkRateLimit` for one key: `e` is the bucket stored for the key
(`none` when absent), `now` the clock; returns the result and the bucket
after the call. -/
def checkRateLimit (e : Option RLEntry) (now limit windowMs : Nat) :
    RLResult × Option RLEntry :=
  match e with
  | none => (⟨true, limit - 1, none⟩, some ⟨1, now + windowMs⟩)
  | some ent =>
    if ent.resetAt ≤ now then (⟨true, limit - 1, none⟩, some ⟨1, now + windowMs⟩)
    else if limit ≤ ent.count then
      (⟨false, 0, some (ent.resetAt - now)⟩, some ent)
    else
      (⟨true, limit - (ent.count + 1), none⟩, some ⟨ent.count + 1, ent.resetAt⟩)

/-- Run a sequence of calls for one key at the given clock times, collecting
the allowed/rejected verdicts. -/
def runCalls (e : Option RLEntry) (limit windowMs : Nat) : List Nat → List Bool
  | [] => []
  | t :: ts =>
    ((checkRateLimit e t limit windowMs).1.allowed) ::
      runCalls (checkRateLimit e t limit windowMs).2 limit windowMs ts

/-- The sliding-window semantics in the claim's words (for comparison with
the source's `checkRateLimit`): a call at time `t` is allowed iff fewer than
`limit` calls were allowed in the preceding window `(t - windowMs, t]`;
`acc` holds the times of the previously allowed calls. -/
def slidingRunSpec (limit windowMs : Nat) (acc : List Nat) : List Nat → List Bool
  | [] => []
  | t :: ts =>
    if (acc.filter (fun u => t < u + windowMs)).length < limit then
      true :: slidingRunSpec limit windowMs (acc ++ [t]) ts
    else
      false :: slidingRunSpec limit windowMs acc ts

/-- C7, counterexample: the limiter is a fixed window, not a sliding window.
For one key at 20 calls per 60000 ms, the schedule `0, 59999 (19 times),
60000, 60000` is fully allowed by `checkRateLimit` (the window that started
at time 0 expires at 60000 and is replaced), while sliding-window semantics
must reject the 22nd call, which has 20 allowed calls in its preceding
60000 ms. -/
theorem checkRateLimit_not_sliding :
    runCalls none 20 60000
        ([0] ++ List.replicate 19 59999 ++ [60000, 60000]) ≠
      slidingRunSpec 20 60000 []
        ([0] ++ List.replicate 19 59999 ++ [60000, 60000]) := by
  decide

/-- C7 (amended): rate limiting follows fixed-window semantics at
`limit` calls per `windowMs`: a call is rejected iff the key's bucket is
live (`now < resetAt`) and already has `limit` allowed calls; a rejected
call leaves the bucket unchanged and reports the remaining window time
immediately (no queueing or retry); and any run of calls that all fall
inside one live window gets at most `limit - count` further calls allowed. -/
theorem checkRateLimit_fixed_window :
    (∀ (e : Option RLEntry) (now limit windowMs : Nat),
      (checkRateLimit e now limit windowMs).1.allowed = false ↔
        ∃ ent, e = some ent ∧ now < ent.resetAt ∧ limit ≤ ent.count) ∧
    (∀ (e : Option RLEntry) (now limit windowMs : Nat) (ent : RLEntry),
      e = some ent → now < ent.resetAt → limit ≤ ent.count →
        (checkRateLimit e now limit windowMs).2 = e ∧
        (checkRateLimit e now limit windowMs).1.retryAfterMs = some (ent.resetAt - now)) ∧
    (∀ (ts : List Nat) (limit windowMs R : Nat), ∀ c ≤ limit, (∀ t ∈ ts, t < R) →
      (runCalls (some ⟨c, R⟩) limit windowMs ts).count true ≤ limit - c) := by
  refine ⟨?_, ?_, ?_⟩
  · intro e now limit windowMs
    match e with
    | none => simp [checkRateLimit]
    | some ent =>
      simp only [checkRateLimit]
      by_cases h1 : ent.resetAt ≤ now
      · simp [h1]
        try omega
      · by_cases h2 : limit ≤ ent.count
        · simp only [h1, if_false, h2, if_true]
          simp
          omega
        · simp only [h1, if_false, h2]
          simp
          omega
  · intro e now limit windowMs ent he h1 h2
    subst he
    simp only [checkRateLimit]
    rw [if_neg (by omega), if_pos h2]
    exact ⟨rfl, rfl⟩
  · intro ts
    induction ts with
    | nil => intro limit windowMs R c hc _; simp [runCalls]
    | cons t ts ih =>
      intro limit windowMs R c hc hall
      rw [runCalls]
      have ht : t < R := hall t (List.mem_cons_self _ _)
      simp only [checkRateLimit]
      rw [if_neg (by omega)]
      by_cases h2 : limit ≤ c
      · rw [if_pos h2]
        simp only [List.count_cons]
        have := ih limit windowMs R c hc (fun u hu => hall u (List.mem_cons_of_mem _ hu))
        simp at this ⊢
        omega
      · rw [if_neg h2]
        simp only [List.count_cons]
        have := ih limit windowMs R (c + 1) (by omega)
          (fun u hu => hall u (List.mem_cons_of_mem _ hu))
        simp at this ⊢
        omega

/-- Witness for the amended C7 theorem: a live bucket at the limit rejects
without touching the bucket, and a run of three in-window calls with the
counter at 19 of 20 allows exactly one. -/
theorem checkRateLimit_fixed_window_witness :
    ((checkRateLimit (some ⟨20, 100⟩) 40 20 60000).2 = some ⟨20, 100⟩ ∧
      (checkRateLimit (some ⟨20, 100⟩) 40 20 60000).1.retryAfterMs = some 60) ∧
    (runCalls (some ⟨19, 100⟩) 20 60000 [41, 42, 43]).count true ≤ 1 :=
  ⟨checkRateLimit_fixed_window.2.1 _ 40 20 60000 ⟨20, 100⟩ rfl (by decide) (by decide),
   checkRateLimit_fixed_window.2.2 [41, 42, 43] 20 60000 100 19 (by omega)
     (by intro t ht; fin_cases ht <;> omega)⟩

/-! ### JSON values and zod-style schema parsing -/

/-- JSON-like values as the services see them. -/
inductive JVal where
  | str : Txt → JVal
  | num : Int → JVal
  | bool : Bool → JVal
  | null : JVal
  | arr : List JVal → JVal
  | obj : List (String × JVal) → JVal

/-- A JavaScript object as an insertion-ordered field list. -/
abbrev JObj := List (String × JVal)

/-- Property access `o[k]` (`none` is `undefined`). -/
def jget (o : JObj) (k : String) : Option JVal :=
  (o.find? (fun p => p.1 = k)).map (fun p => p.2)

/-- `z.string().default("")`: a missing key defaults to the empty string, a
present value must be a string. -/
def zStrD (o : JObj) (k : String) : Except String Txt :=
  match jget o k with
  | none => .ok []
  | some (.str s) => .ok s
  | some _ => .error k

/-- `z.literal(lit)` for a string literal: required and exact. -/
def zLit (o : JObj) (k : String) (lit : Txt) : Except String Unit :=
  match jget o k with
  | some (.str s) => if s = lit then .ok () else .error k
  | _ => .error k

/-! ### The extraction schemas (saleSchema, rentSchema, buyerSchema, clientSchema) -/

inductive IntakeType where
  | sale
  | rent
  | buyer
  | client
  | other
deriving DecidableEq

structure SaleFields where
  code : Txt
  property_type : Txt
  price : Txt
  currency : Txt
  size_sqm : Txt
  bedrooms : Txt
  bathrooms : Txt
  location_area : Txt
  compound : Txt
  floor : Txt
  furnished : Txt
  finishing : Txt
  payment_terms : Txt
  contact_name : Txt
  contact_phone : Txt
  notes : Txt
deriving DecidableEq

structure RentFields extends SaleFields where
  rent_period : Txt
deriving DecidableEq

structure BuyerFields where
  code : Txt
  intent : Txt
  budget_min : Txt
  budget_max : Txt
  currency : Txt
  preferred_areas : Txt
  property_type : Txt
  bedrooms_needed : Txt
  move_timeline : Txt
  contact_name : Txt
  contact_phone : Txt
  notes : Txt
deriving DecidableEq

structure ClientFields where
  code : Txt
  client_type : Txt
  name : Txt
  phone : Txt
  area : Txt
  notes : Txt
deriving DecidableEq

def saleParse (o : JObj) : Except String SaleFields := do
  let code ← zStrD o "code"
  let _ ← zLit o "listing_type" "sale".toList
  let property_type ← zStrD o "property_type"
  let price ← zStrD o "price"
  let currency ← zStrD o "currency"
  let size_sqm ← zStrD o "size_sqm"
  let bedrooms ← zStrD o "bedrooms"
  let bathrooms ← zStrD o "bathrooms"
  let location_area ← zStrD o "location_area"
  let compound ← zStrD o "compound"
  let floor ← zStrD o "floor"
  let furnished ← zStrD o "furnished"
  let finishing ← zStrD o "finishing"
  let payment_terms ← zStrD o "payment_terms"
  let contact_name ← zStrD o "contact_name"
  let contact_phone ← zStrD o "contact_phone"
  let notes ← zStrD o "notes"
  return { code := code, property_type := property_type, price := price,
           currency := currency, size_sqm := size_sqm, bedrooms := bedrooms,
           bathrooms := bathrooms, location_area := location_area,
           compound := compound, floor := floor, furnished := furnished,
           finishing := finishing, payment_terms := payment_terms,
           contact_name := contact_name, contact_phone := contact_phone,
           notes := notes }

def rentParse (o : JObj) : Except String RentFields := do
  let code ← zStrD o "code"
  let _ ← zLit o "listing_type" "rent".toList
  let property_type ← zStrD o "property_type"
  let price ← zStrD o "price"
  let currency ← zStrD o "currency"
  let size_sqm ← zStrD o "size_sqm"
  let bedrooms ← zStrD o "bedrooms"
  let bathrooms ← zStrD o "bathrooms"
  let location_area ← zStrD o "location_area"
  let compound ← zStrD o "compound"
  let floor ← zStrD o "floor"
  let furnished ← zStrD o "furnished"
  let finishing ← zStrD o "finishing"
  let payment_terms ← zStrD o "payment_terms"
  let contact_name ← zStrD o "contact_name"
  let contact_phone ← zStrD o "contact_phone"
  let rent_period ← zStrD o "rent_period"
  let notes ← zStrD o "notes"
  return { code := code, property_type := property_type, price := price,
           currency := currency, size_sqm := size_sqm, bedrooms := bedrooms,
           bathrooms := bathrooms, location_area := location_area,
           compound := compound, floor := floor, furnished := furnished,
           finishing := finishing, payment_terms := payment_terms,
           contact_name := contact_name, contact_phone := contact_phone,
           rent_period := rent_period, notes := notes }

def buyerParse (o : JObj) : Except String BuyerFields := do
  let code ← zStrD o "code"
  let intent ← zStrD o "intent"
  let budget_min ← zStrD o "budget_min"
  let budget_max ← zStrD o "budget_max"
  let currency ← zStrD o "currency"
  let preferred_areas ← zStrD o "preferred_areas"
  let property_type ← zStrD o "property_type"
  let bedrooms_needed ← zStrD o "bedrooms_needed"
  let move_timeline ← zStrD o "move_timeline"
  let contact_name ← zStrD o "contact_name"
  let contact_phone ← zStrD o "contact_phone"
  let notes ← zStrD o "notes"
  return { code := code, intent := intent, budget_min := budget_min,
           budget_max := budget_max, currency := currency,
           preferred_areas := preferred_areas, property_type := property_type,
           bedrooms_needed := bedrooms_needed, move_timeline := move_timeline,
           contact_name := contact_name, contact_phone := contact_phone,
           notes := notes }

def clientParse (o : JObj) : Except String ClientFields := do
  let code ← zStrD o "code"
  let client_type ← zStrD o "client_type"
  let name ← zStrD o "name"
  let phone ← zStrD o "phone"
  let area ← zStrD o "area"
  let notes ← zStrD o "notes"
  return { code := code, client_type := client_type, name := name,
           phone := phone, area := area, notes := notes }

/-! ### The deterministic validation rules of validateAndNormalize -/

/-- `digitsOnly` of the service: map Arabic digits and keep `[0-9]` runs,
joined (equivalently: keep every ASCII digit). -/
def digitsOnlyV (l : Txt) : Txt := (arabicToEnglishDigits l).filter (fun c => c.isDigit)

/-- `normalizeEnum`: lower-cased trimmed value if in the allow-list, else empty. -/
def normalizeEnum (value : Txt) (options : List Txt) : Txt :=
  let raw := (jsTrim value).map Char.toLower
  if raw ∈ options then raw else []

def furnishedEnum : List Txt :=
  [[], "fully_furnished".toList, "semi_furnished".toList, "not_furnished".toList]

def rentPeriodEnum : List Txt :=
  [[], "daily".toList, "weekly".toList, "monthly".toList, "yearly".toList]

def intentEnum : List Txt := [[], "buy".toList, "rent".toList]

def clientTypeEnum : List Txt :=
  [[], "owner".toList, "seller".toList, "landlord".toList, "broker".toList,
   "other".toList]

def currencyEnum : List Txt := [[], "egp".toList]

/-- Match of `\bstudio\b|ستوديو` (case-insensitive) at the head of `l`. -/
def studioHere (wb : Bool) (l : Txt) : Bool :=
  (!wb &&
    (match stripTokCI "studio".toList l with
     | some r => noWordAhead r
     | none => false)) ||
  (stripTokCI "ستوديو".toList l).isSome

def studioScan : Bool → Txt → Bool
  | _, [] => false
  | wb, c :: cs => studioHere wb (c :: cs) || studioScan (isWordChar c) cs

/-- `/\bstudio\b|ستوديو/i.test`. -/
def studioTest (l : Txt) : Bool := studioScan false l

def locationKeywords : List Txt :=
  ["resort".toList, "compound".toList, "village".toList, "residence".toList,
   "heights".toList, "gardens".toList, "bay".toList, "marina".toList]

def kwHere (wb : Bool) (l : Txt) : Bool :=
  !wb && locationKeywords.any (fun t =>
    match stripTokCI t l with
    | some r => noWordAhead r
    | none => false)

def kwScan : Bool → Txt → Bool
  | _, [] => false
  | wb, c :: cs => kwHere wb (c :: cs) || kwScan (isWordChar c) cs

/-- `/\b(resort|compound|village|residence|heights|gardens|bay|marina)\b/i.test`. -/
def locationKeywordTest (l : Txt) : Bool := kwScan false l

/-- `maybeLocationCompoundSync`. -/
def maybeLocationCompoundSync (locationArea compound : Txt) : Txt × Txt :=
  let place := jsTrim (locationArea ++ ' ' :: compound)
  if place = [] then (locationArea, compound)
  else if locationKeywordTest place then
    let normalized := jsTrim (wsCollapse place)
    (normalized, normalized)
  else (locationArea, compound)

/-- Case-insensitive substring test (a regex alternative with no anchors). -/
def substrCI (pat : Txt) : Txt → Bool
  | [] => (stripTokCI pat []).isSome
  | c :: cs => (stripTokCI pat (c :: cs)).isSome || substrCI pat cs

/-- The feature detectors of `extractFeatureNotes`, in source order: each is
an alternation of case-insensitive substrings and the label it contributes. -/
def featureChecks : List (List Txt × Txt) :=
  [([ "sea view".toList, "اطلالة بحر".toList, "view sea".toList], "Sea view".toList),
   ([ "street view".toList, "اطلالة شارع".toList], "Street view".toList),
   ([ "balcony".toList, "بلكونة".toList, "تراس".toList], "Balcony".toList),
   ([ "maintenance".toList, "صيانة".toList], "Maintenance".toList),
   ([ "including furniture".toList, "with furniture".toList, "مفروش".toList],
    "Including furniture".toList),
   ([ "studio".toList, "ستوديو".toList], "Studio".toList)]

/-- `extractFeatureNotes`: the labels whose detector fires, in order (labels
are pairwise distinct, so the source's duplicate guard never fires). -/
def extractFeatureNotes (l : Txt) : List Txt :=
  (featureChecks.filter (fun pc => pc.1.any (fun pat => substrCI pat l))).map
    (fun pc => pc.2)

/-- JS `Set` insertion-order deduplication. -/
def dedupSeen (seen : List Txt) : List Txt → List Txt
  | [] => []
  | s :: rest =>
    if s ∈ seen then dedupSeen seen rest else s :: dedupSeen (s :: seen) rest

/-- `normalizeNotes`: trim, drop empties, deduplicate preserving first
occurrences, and join with `", "`. -/
def normalizeNotes (existing : Txt) (normalizedText : Txt) : Txt :=
  List.intercalate ", ".toList
    (dedupSeen [] (((existing :: extractFeatureNotes normalizedText).map jsTrim).filter
      (fun s => s ≠ [])))

/-- `String.prototype.split(",")`. -/
def splitChar (sep : Char) : Txt → List Txt
  | [] => [[]]
  | c :: cs =>
    match splitChar sep cs with
    | [] => [[c]]
    | s :: ss => if c = sep then [] :: s :: ss else (c :: s) :: ss

/-- `Number(confidenceMapRaw[k])`: JSON numbers are finite, booleans and null
coerce, and the remaining shapes (absent keys, strings, arrays, objects) are
treated as not-a-number — the service's payloads put numbers here, and
JavaScript's numeric-string coercion is not modelled. -/
def jsNumber : Option JVal → Option Rat
  | some (.num i) => some (i : Rat)
  | some (.bool b) => some (if b then 1 else 0)
  | some .null => some 0
  | _ => none

/-- `(extractedJson.confidence_map || {})`; a truthy non-object would make
every later index `undefined`, which coincides with the empty object. -/
def confMapRaw (o : JObj) : JObj :=
  match jget o "confidence_map" with
  | some (.obj f) => f
  | _ => []

/-- The per-field confidence of `set`: the model-supplied number clamped to
[0,1] when finite, else 0.82 for non-empty and 0.2 for empty values. -/
def confValue (raw : JObj) (k : String) (v : Txt) : Rat :=
  match jsNumber (jget raw k) with
  | some q => max 0 (min 1 q)
  | none => if v ≠ [] then (82 : Rat) / 100 else (2 : Rat) / 10

/-- The critical-field lists `criticalByType` of the service. -/
def criticalByType : IntakeType → List String
  | .sale => ["price", "location_area"]
  | .rent => ["price", "location_area"]
  | .buyer => ["budget_max", "preferred_areas"]
  | .client => ["name", "phone"]
  | .other => []

structure ValidateResult where
  normalized_json : List (String × Txt)
  missing_fields : List String
  confidence_map : List (String × Rat)
deriving DecidableEq

/-- Assemble the result from the `set`-call sequence: the entries in call
order, the per-field confidences, and the missing critical fields computed
on the final map. -/
def entriesToResult (raw : JObj) (entries : List (String × Txt))
    (critical : List String) : ValidateResult :=
  { normalized_json := entries,
    missing_fields := critical.filter
      (fun f => ((entries.find? (fun p => p.1 = f)).map (fun p => p.2)).getD [] = []),
    confidence_map := entries.map (fun p => (p.1, confValue raw p.1 p.2)) }

def saleRentEntries (t : IntakeType) (src : SaleFields) (rentPeriod : Option Txt)
    (txtSafe : Txt) : List (String × Txt) :=
  let synced := maybeLocationCompoundSync src.location_area src.compound
  let bedroomsV :=
    if studioTest (src.bedrooms ++ ' ' :: txtSafe) then "0".toList
    else digitsOnlyV src.bedrooms
  [("code", src.code),
   ("listing_type", if t = .sale then "sale".toList else "rent".toList),
   ("property_type", src.property_type),
   ("price", digitsOnlyV src.price),
   ("currency",
     normalizeEnum ((normalizeCurrencyTokens src.currency).map Char.toLower) currencyEnum),
   ("size_sqm", digitsOnlyV src.size_sqm),
   ("bedrooms", bedroomsV),
   ("bathrooms", digitsOnlyV src.bathrooms),
   ("location_area", synced.1),
   ("compound", synced.2),
   ("floor", digitsOnlyV src.floor),
   ("furnished", normalizeEnum src.furnished furnishedEnum),
   ("finishing", src.finishing),
   ("payment_terms", src.payment_terms),
   ("contact_name", src.contact_name),
   ("contact_phone", digitsOnlyV src.contact_phone)] ++
  (match rentPeriod with
   | some rp => [("rent_period", normalizeEnum rp rentPeriodEnum)]
   | none => []) ++
  [("notes", normalizeNotes src.notes txtSafe)]

def buyerEntries (src : BuyerFields) (txtSafe : Txt) : List (String × Txt) :=
  [("code", src.code),
   ("intent", normalizeEnum src.intent intentEnum),
   ("budget_min", digitsOnlyV src.budget_min),
   ("budget_max", digitsOnlyV src.budget_max),
   ("currency",
     normalizeEnum ((normalizeCurrencyTokens src.currency).map Char.toLower) currencyEnum),
   ("preferred_areas",
     List.intercalate ", ".toList
       (((splitChar ',' src.preferred_areas).map jsTrim).filter (fun s => s ≠ []))),
   ("property_type", src.property_type),
   ("bedrooms_needed", digitsOnlyV src.bedrooms_needed),
   ("move_timeline", src.move_timeline),
   ("contact_name", src.contact_name),
   ("contact_phone", digitsOnlyV src.contact_phone),
   ("notes", normalizeNotes src.notes txtSafe)]

def clientEntries (src : ClientFields) (txtSafe : Txt) : List (String × Txt) :=
  [("code", src.code),
   ("client_type", normalizeEnum src.client_type clientTypeEnum),
   ("name", src.name),
   ("phone", digitsOnlyV src.phone),
   ("area", src.area),
   ("notes", normalizeNotes src.notes txtSafe)]

/-- `validateAndNormalize`: type `other` stores only the normalized raw text
as notes with confidence 0.7; the remaining types re-parse the extracted map
with their zod schema (a mismatch throws, modelled as `.error`) and apply
the deterministic field rules. -/
def validateAndNormalize (t : IntakeType) (o : JObj) (txt : Txt) :
    Except String ValidateResult :=
  match t with
  | .other =>
    .ok { normalized_json := [("notes", normalizeDetectedText txt)],
          missing_fields := [],
          confidence_map := [("notes", (7 : Rat) / 10)] }
  | .sale =>
    match saleParse o with
    | .error e => .error e
    | .ok src =>
      .ok (entriesToResult (confMapRaw o)
        (saleRentEntries .sale src none (normalizeDetectedText txt))
        (criticalByType .sale))
  | .rent =>
    match rentParse o with
    | .error e => .error e
    | .ok src =>
      .ok (entriesToResult (confMapRaw o)
        (saleRentEntries .rent src.toSaleFields (some src.rent_period)
          (normalizeDetectedText txt))
        (criticalByType .rent))
  | .buyer =>
    match buyerParse o with
    | .error e => .error e
    | .ok src =>
      .ok (entriesToResult (confMapRaw o) (buyerEntries src (normalizeDetectedText txt))
        (criticalByType .buyer))
  | .client =>
    match clientParse o with
    | .error e => .error e
    | .ok src =>
      .ok (entriesToResult (confMapRaw o) (clientEntries src (normalizeDetectedText txt))
        (criticalByType .client))

/-! ### The classifier payload parser (detectSchema + parseDetectModelPayload) -/

inductive Lang where
  | ar
  | en
  | mixed
deriving DecidableEq

structure DetectResult where
  detected_type : IntakeType
  confidence : Nat
  language : Lang
  normalized_text : Txt
  signals : List Txt
deriving DecidableEq

def detectTypeOf (s : Txt) : Option IntakeType :=
  if s = "sale".toList then some .sale
  else if s = "rent".toList then some .rent
  else if s = "buyer".toList then some .buyer
  else if s = "client".toList then some .client
  else if s = "other".toList then some .other
  else none

def langOf (s : Txt) : Option Lang :=
  if s = "ar".toList then some .ar
  else if s = "en".toList then some .en
  else if s = "mixed".toList then some .mixed
  else none

/-- `z.array(z.string()).default([])` for the `signals` key. -/
def zSignals (o : JObj) : Except String (List Txt) :=
  match jget o "signals" with
  | none => .ok []
  | some (.arr vs) =>
    if vs.all (fun v => match v with | .str _ => true | _ => false) then
      .ok (vs.filterMap (fun v => match v with | .str s => some s | _ => none))
    else .error "signals"
  | some _ => .error "signals"

/-- `parseDetectModelPayload`: `detectSchema.parse` (throw modelled as
`.error`), then clamp `parseInt(confidence)` into [0,100] and re-normalize
the model's `normalized_text`.  The `confidence` schema is
`z.string().regex(/^\d{1,3}$/)`. -/
def parseDetectModelPayload (v : JVal) : Except String DetectResult :=
  match v with
  | .obj o =>
    match jget o "detected_type" with
    | some (.str dts) =>
      match detectTypeOf dts with
      | some dt =>
        match jget o "confidence" with
        | some (.str cstr) =>
          if 1 ≤ cstr.length ∧ cstr.length ≤ 3 ∧ cstr.all (fun c => c.isDigit) then
            match jget o "language" with
            | some (.str ls) =>
              match langOf ls with
              | some lang =>
                match jget o "normalized_text" with
                | some (.str nt) =>
                  match zSignals o with
                  | .ok sigs =>
                    .ok { detected_type := dt,
                          confidence := max 0 (min 100 (parseMSB cstr)),
                          language := lang,
                          normalized_text := normalizeDetectedText nt,
                          signals := sigs }
                  | .error e => .error e
                | _ => .error "normalized_text"
              | none => .error "language"
            | _ => .error "language"
          else .error "confidence"
        | _ => .error "confidence"
      | none => .error "detected_type"
    | _ => .error "detected_type"
  | _ => .error "payload"

/-- C8, counterexample: an out-of-range confidence of four digits is
rejected by the schema (`^\d{1,3}$`), not clamped — `parseDetectModelPayload`
fails on an otherwise valid payload with confidence `"1000"`. -/
theorem parseDetectModelPayload_reject_cex :
    (parseDetectModelPayload (.obj
      [("detected_type", .str "sale".toList), ("confidence", .str "1000".toList),
       ("language", .str "en".toList), ("normalized_text", .str "flat".toList),
       ("signals", .arr [])])).isOk = false := by decide

/-- C8 (amended): every successfully parsed payload carries a confidence in
[0,100]; an out-of-range confidence still matching the 1–3-digit schema
(101–999) is clamped to 100 rather than rejected, while values of four or
more digits, negative values, and non-numeric strings fail the schema
(see the counterexample). -/
theorem parseDetectModelPayload_confidence :
    (∀ (v : JVal) (r : DetectResult), parseDetectModelPayload v = .ok r →
      r.confidence ≤ 100) ∧
    (parseDetectModelPayload (.obj
      [("detected_type", .str "sale".toList), ("confidence", .str "999".toList),
       ("language", .str "en".toList), ("normalized_text", .str "flat".toList),
       ("signals", .arr [])])).toOption.map (fun r => r.confidence) = some 100 := by
  constructor
  · intro v r hr
    unfold parseDetectModelPayload at hr
    repeat' split at hr
    all_goals cases hr
    change 0 ⊔ 100 ⊓ parseMSB _ ≤ 100
    omega
  · decide

/-- Witness for the amended C8 theorem: the bound applies to the concrete
in-range payload with confidence `"92"`. -/
theorem parseDetectModelPayload_confidence_witness :
    ∃ r, parseDetectModelPayload (.obj
      [("detected_type", .str "sale".toList), ("confidence", .str "92".toList),
       ("language", .str "ar".toList), ("normalized_text", .str "flat".toList)])
        = .ok r ∧ r.confidence ≤ 100 := by
  cases hv : parseDetectModelPayload (.obj
      [("detected_type", .str "sale".toList), ("confidence", .str "92".toList),
       ("language", .str "ar".toList), ("normalized_text", .str "flat".toList)]) with
  | error e =>
    have hok : (parseDetectModelPayload (.obj
      [("detected_type", .str "sale".toList), ("confidence", .str "92".toList),
       ("language", .str "ar".toList), ("normalized_text", .str "flat".toList)])).isOk
        = true := by decide
    rw [hv] at hok
    exact Bool.noConfusion hok
  | ok r => exact ⟨r, rfl, parseDetectModelPayload_confidence.1 _ r hv⟩

/-! ### Claim C4: client missing-critical fields in validateAndNormalize -/

unseal currencyLatin currencyArabic punctCollapse in
/-- C4, counterexample: for a client extraction with a non-empty name, an
empty phone and a valid non-empty client_type, the claim predicts an empty
missing-fields list (name-or-phone present, client type present), but
`validateAndNormalize` returns `["phone"]`: its client critical list is
`name` and `phone`, each required separately, and `client_type` is not
consulted. -/
theorem validateAndNormalize_client_missing_cex :
    (validateAndNormalize .client
        [("name", .str "Ahmed".toList), ("phone", .str "".toList),
         ("client_type", .str "owner".toList)] []).toOption.map
        (fun r => r.missing_fields) = some ["phone"] ∧
    ("Ahmed".toList : Txt) ≠ [] ∧
    normalizeEnum "owner".toList clientTypeEnum ≠ [] := by
  refine ⟨by decide, by decide, by decide⟩

/-- C4 (amended): for every client extraction accepted by the client schema,
the missing-fields list of `validateAndNormalize` is empty exactly when the
name is non-empty and the digit-normalized phone is non-empty — the critical
list is `["name", "phone"]`, both required; `client_type` plays no part (the
name-or-phone plus client-type rule belongs to the orchestrator's
`computeMissingCritical`, not to `validateAndNormalize`). -/
theorem validateAndNormalize_client_missing (o : JObj) (txt : Txt)
    (src : ClientFields) (hp : clientParse o = .ok src) (r : ValidateResult)
    (hr : validateAndNormalize .client o txt = .ok r) :
    r.missing_fields = [] ↔ (src.name ≠ [] ∧ digitsOnlyV src.phone ≠ []) := by
  unfold validateAndNormalize at hr
  rw [hp] at hr
  cases hr
  simp only [entriesToResult, clientEntries, criticalByType]
  by_cases hn : src.name = [] <;> by_cases hph : digitsOnlyV src.phone = [] <;>
    simp [List.find?, hn, hph]

unseal currencyLatin currencyArabic punctCollapse in
/-- Witness for the amended C4 theorem at a client payload carrying both a
name and a phone. -/
theorem validateAndNormalize_client_missing_witness :
    (validateAndNormalize .client
        [("name", .str "Ahmed".toList), ("phone", .str "0100".toList)] []).toOption.map
      (fun r => r.missing_fields) = some [] := by
  cases hv : validateAndNormalize .client
      [("name", .str "Ahmed".toList), ("phone", .str "0100".toList)] [] with
  | error e =>
    have hok : (validateAndNormalize .client
        [("name", .str "Ahmed".toList), ("phone", .str "0100".toList)] []).isOk
        = true := by decide
    rw [hv] at hok
    exact Bool.noConfusion hok
  | ok r =>
    have hm := (validateAndNormalize_client_missing
      [("name", .str "Ahmed".toList), ("phone", .str "0100".toList)] []
      { code := [], client_type := [], name := "Ahmed".toList,
        phone := "0100".toList, area := [], notes := [] } rfl r hv).mpr
      ⟨by decide, by decide⟩
    simp [Except.toOption, hm]

/-! ### Claim C5: the studio rule -/

theorem stripTokCI_app {t l r : Txt} (m : Txt) (h : stripTokCI t l = some r) :
    stripTokCI t (l ++ m) = some (r ++ m) := by
  induction t generalizing l with
  | nil =>
    simp [stripTokCI] at h
    subst h
    rfl
  | cons a ts ih =>
    match l with
    | [] => simp [stripTokCI] at h
    | c :: cs =>
      simp only [stripTokCI] at h ⊢
      split at h
      · rename_i hc
        rw [if_pos hc]
        exact ih h
      · simp at h

theorem noWordAhead_app_space {r b : Txt} (h : noWordAhead r = true) :
    noWordAhead (r ++ ' ' :: b) = true := by
  match r with
  | [] => rfl
  | c :: cs => exact h

theorem studioHere_app {wb : Bool} {l : Txt} (b : Txt) (h : studioHere wb l = true) :
    studioHere wb (l ++ ' ' :: b) = true := by
  unfold studioHere at h ⊢
  rcases Bool.or_eq_true_iff.mp h with h1 | h1
  · apply Bool.or_eq_true_iff.mpr
    left
    rcases Bool.and_eq_true_iff.mp h1 with ⟨hwb, hm⟩
    apply Bool.and_eq_true_iff.mpr
    refine ⟨hwb, ?_⟩
    match hs : stripTokCI "studio".toList l with
    | some r =>
      rw [hs] at hm
      rw [stripTokCI_app (' ' :: b) hs]
      exact noWordAhead_app_space hm
    | none => rw [hs] at hm; exact absurd hm (by simp)
  · apply Bool.or_eq_true_iff.mpr
    right
    rw [Option.isSome_iff_exists] at h1
    obtain ⟨r, hr⟩ := h1
    rw [stripTokCI_app (' ' :: b) hr]
    rfl

theorem studioScan_app_left {a : Txt} (b : Txt) :
    ∀ wb, studioScan wb a = true → studioScan wb (a ++ ' ' :: b) = true := by
  induction a with
  | nil => intro wb h; rw [studioScan] at h; exact absurd h (by simp)
  | cons c cs ih =>
    intro wb h
    rw [studioScan] at h
    rw [List.cons_append, studioScan]
    rcases Bool.or_eq_true_iff.mp h with h1 | h1
    · rw [← List.cons_append]
      rw [studioHere_app b h1]
      simp
    · rw [ih (isWordChar c) h1]
      simp

theorem studioScan_app_right (a : Txt) {b : Txt}
    (h : studioScan false b = true) : ∀ wb, studioScan wb (a ++ ' ' :: b) = true := by
  induction a with
  | nil =>
    intro wb
    rw [List.nil_append, studioScan]
    have : isWordChar ' ' = false := by decide
    rw [this, h]
    simp
  | cons c cs ih =>
    intro wb
    rw [List.cons_append, studioScan, ih (isWordChar c)]
    simp

/-- C5: for sale and rent extractions accepted by their schema, if the word
`studio` (or `ستوديو`) occurs in the extracted bedrooms field or anywhere in
the normalized text, the normalized bedrooms value is `"0"`, regardless of
what was extracted. -/
theorem validateAndNormalize_studio :
    (∀ (o : JObj) (txt : Txt) (src : SaleFields) (r : ValidateResult),
      saleParse o = .ok src →
      validateAndNormalize .sale o txt = .ok r →
      (studioTest src.bedrooms = true ∨
        studioTest (normalizeDetectedText txt) = true) →
      ((r.normalized_json.find? (fun p => p.1 = "bedrooms")).map (fun p => p.2)) =
        some "0".toList) ∧
    (∀ (o : JObj) (txt : Txt) (src : RentFields) (r : ValidateResult),
      rentParse o = .ok src →
      validateAndNormalize .rent o txt = .ok r →
      (studioTest src.bedrooms = true ∨
        studioTest (normalizeDetectedText txt) = true) →
      ((r.normalized_json.find? (fun p => p.1 = "bedrooms")).map (fun p => p.2)) =
        some "0".toList) := by
  constructor
  · intro o txt src r hp hr hst
    unfold validateAndNormalize at hr
    rw [hp] at hr
    cases hr
    have hcat : studioTest (src.bedrooms ++ ' ' :: normalizeDetectedText txt) = true := by
      rcases hst with h | h
      · exact studioScan_app_left _ false h
      · exact studioScan_app_right _ h false
    simp only [entriesToResult, saleRentEntries]
    rw [hcat]
    simp
  · intro o txt src r hp hr hst
    unfold validateAndNormalize at hr
    rw [hp] at hr
    cases hr
    have hcat : studioTest (src.toSaleFields.bedrooms ++ ' ' :: normalizeDetectedText txt)
        = true := by
      rcases hst with h | h
      · exact studioScan_app_left _ false h
      · exact studioScan_app_right _ h false
    simp only [entriesToResult, saleRentEntries]
    rw [hcat]
    simp

unseal currencyLatin currencyArabic punctCollapse in
/-- Witness for the C5 theorem: a sale extraction with bedrooms `"studio"`. -/
theorem validateAndNormalize_studio_witness :
    (validateAndNormalize .sale
        [("listing_type", .str "sale".toList), ("bedrooms", .str "studio".toList)]
        "flat".toList).toOption.map
      (fun r => (r.normalized_json.find? (fun p => p.1 = "bedrooms")).map
        (fun p => p.2)) = some (some "0".toList) := by
  cases hv : validateAndNormalize .sale
      [("listing_type", .str "sale".toList), ("bedrooms", .str "studio".toList)]
      "flat".toList with
  | error e =>
    have hok : (validateAndNormalize .sale
        [("listing_type", .str "sale".toList), ("bedrooms", .str "studio".toList)]
        "flat".toList).isOk = true := by decide
    rw [hv] at hok
    exact Bool.noConfusion hok
  | ok r =>
    have hb := validateAndNormalize_studio.1
      [("listing_type", .str "sale".toList), ("bedrooms", .str "studio".toList)]
      "flat".toList
      { code := [], property_type := [], price := [], currency := [], size_sqm := [],
        bedrooms := "studio".toList, bathrooms := [], location_area := [],
        compound := [], floor := [], furnished := [], finishing := [],
        payment_terms := [], contact_name := [], contact_phone := [], notes := [] }
      r rfl hv (Or.inl (by decide))
    simp [Except.toOption, hb]

/-! ### The confirmation orchestrator (confirm-intake service) -/

inductive ReviewType where
  | sale
  | rent
  | buyer
  | client
deriving DecidableEq

inductive Mode where
  | create_new
  | update_existing
deriving DecidableEq

def tableByType : ReviewType → String
  | .sale => "properties_sale"
  | .rent => "properties_rent"
  | .buyer => "buyers"
  | .client => "clients"

def reviewTypeName : ReviewType → String
  | .sale => "sale"
  | .rent => "rent"
  | .buyer => "buyer"
  | .client => "client"

def codePrefixByType : ReviewType → Txt
  | .sale => "SALE".toList
  | .rent => "RENT".toList
  | .buyer => "BUY".toList
  | .client => "CLI".toList

def saleRentFurnishedSet : List Txt :=
  ["furnished".toList, "semi_furnished".toList, "unfurnished".toList, "unknown".toList]

def clientRoleSet : List Txt := ["owner".toList, "seller".toList, "landlord".toList]

def allowedFieldsByType : ReviewType → List String
  | .sale =>
    ["source", "price", "currency", "size_sqm", "bedrooms", "bathrooms", "area",
     "compound", "floor", "furnished", "finishing", "payment_terms", "notes"]
  | .rent =>
    ["source", "price", "currency", "size_sqm", "bedrooms", "bathrooms", "area",
     "compound", "floor", "furnished", "finishing", "payment_terms", "notes"]
  | .buyer =>
    ["source", "budget_min", "budget_max", "preferred_areas", "bedrooms_needed",
     "timeline", "notes"]
  | .client => ["source", "name", "phone", "role", "notes"]

def numericFieldsSan : List String :=
  ["price", "size_sqm", "bedrooms", "bathrooms", "floor", "budget_min",
   "budget_max", "bedrooms_needed"]

/-- `String(i)` for an integer. -/
def intToTxt (i : Int) : Txt :=
  if i < 0 then '-' :: natToTxt (-i).toNat else natToTxt i.toNat

/-- `String(v)` on non-container values (inside an array, `null` renders
empty); nested arrays are not modelled. -/
def jsStringFlat : JVal → Txt
  | .str s => s
  | .num i => intToTxt i
  | .bool b => if b then "true".toList else "false".toList
  | .null => []
  | .arr _ => []
  | .obj _ => "[object Object]".toList

/-- `String(v)` for the value shapes the orchestrator stores. -/
def jsString : JVal → Txt
  | .arr vs => List.intercalate ",".toList (vs.map jsStringFlat)
  | .obj _ => "[object Object]".toList
  | v => jsStringFlat v

/-- `String(v ?? "")`. -/
def jsStringCoalesce : Option JVal → Txt
  | none => []
  | some .null => []
  | some v => jsString v

/-- `text(value)` of the orchestrator: `String(value ?? "").trim()`. -/
def textOf (v : Option JVal) : Txt := jsTrim (jsStringCoalesce v)

/-- The orchestrator's `digitsOnly`: `text(value).replace(/\D/g, "")` (note:
unlike the service's version, no Arabic digit mapping). -/
def digitsOnlyO (v : Option JVal) : Txt := (textOf v).filter (fun c => c.isDigit)

/-- `numericOrNull`. -/
def numericOrNull (v : Option JVal) : Option Nat :=
  let raw := digitsOnlyO v
  if raw = [] then none else some (parseMSB raw)

/-- The orchestrator's `normalizePhone`: keep digits and `+`, then delete
every `+` not at the start of the intermediate string. -/
def normalizePhoneO (v : Option JVal) : Txt :=
  let kept := (jsStringCoalesce v).filter (fun c => c.isDigit || c = '+')
  match kept with
  | '+' :: rest => '+' :: rest.filter (fun c => c ≠ '+')
  | _ => kept.filter (fun c => c ≠ '+')

/-- `sanitizeForType`: project the input onto the type's allow-list, with
numeric coercion to number-or-null, list coercion for `preferred_areas`,
phone normalization, and safe enum fallbacks for `furnished` and `role`. -/
def sanitizeForType (t : ReviewType) (input : JObj) : List (String × JVal) :=
  (allowedFieldsByType t).map (fun field =>
    let value := jget input field
    if field ∈ numericFieldsSan then
      (field, match numericOrNull value with
        | some n => .num n
        | none => .null)
    else if field = "preferred_areas" then
      (field, .arr ((match value with
        | some (.arr vs) => (vs.map (fun v => textOf (some v))).filter (fun s => s ≠ [])
        | _ => ((splitChar ',' (textOf value)).map jsTrim).filter
            (fun s => s ≠ [])).map JVal.str))
    else if field = "phone" then (field, .str (normalizePhoneO value))
    else if field = "furnished" then
      (field, .str (if (textOf value).map Char.toLower ∈ saleRentFurnishedSet then
        (textOf value).map Char.toLower else "unknown".toList))
    else if field = "role" then
      (field, .str (if (textOf value).map Char.toLower ∈ clientRoleSet then
        (textOf value).map Char.toLower else "owner".toList))
    else (field, .str (textOf value)))

/-- JavaScript truthiness of a property value. -/
def jsTruthy : Option JVal → Bool
  | none => false
  | some .null => false
  | some (.num i) => i ≠ 0
  | some (.str s) => s ≠ []
  | some (.bool b) => b
  | some (.arr _) => true
  | some (.obj _) => true

/-- `a || b` on property values. -/
def jsOr (a b : Option JVal) : Option JVal := if jsTruthy a then a else b

/-- `computeMissingCritical` of the orchestrator. -/
def computeMissingCritical (t : ReviewType) (row : JObj) : List String :=
  match t with
  | .sale =>
    (if !jsTruthy (jget row "price") then ["price"] else []) ++
    (if textOf (jget row "area") = [] ∧ textOf (jget row "compound") = [] then
      ["location_area"] else [])
  | .rent =>
    (if !jsTruthy (jget row "price") then ["price"] else []) ++
    (if textOf (jget row "area") = [] ∧ textOf (jget row "compound") = [] then
      ["location_area"] else [])
  | .buyer =>
    (if !jsTruthy (jget row "budget_min") ∧ !jsTruthy (jget row "budget_max") then
      ["budget"] else []) ++
    (if (match jget row "preferred_areas" with
         | some (.arr vs) => vs.isEmpty
         | _ => true) then ["preferred_areas"] else [])
  | .client =>
    (if textOf (jget row "name") = [] ∧ textOf (jget row "phone") = [] then
      ["name_or_phone"] else []) ++
    (if textOf (jget row "role") = [] then ["client_type"] else [])

/-- One step of `mergeRow` over the incoming sanitized entries: per key, the
decision (defaulting to `append` for notes and `replace_with_new` otherwise)
selects the kept value, and a field is recorded as changed when the string
forms of the old and the kept value differ. -/
def mergeRowGo (existing : JObj) (decisions : List (String × String)) :
    List (String × JVal) → List (String × Option JVal) × List String
  | [] => ([], [])
  | (key, next) :: rest =>
    let decision := ((decisions.find? (fun p => p.1 = key)).map (fun p => p.2)).getD
      (if key = "notes" then "append" else "replace_with_new")
    let current := jget existing key
    let value : Option JVal :=
      if decision = "replace_with_new" then some next
      else if decision = "append" ∧ key = "notes" then
        some (.str
          (if textOf current ≠ [] ∧ textOf (some next) ≠ [] then
            textOf current ++ '\n' :: textOf (some next)
           else if textOf current ≠ [] then textOf current
           else textOf (some next)))
      else current
    let r := mergeRowGo existing decisions rest
    ((key, value) :: r.1,
     (if jsStringCoalesce current ≠ jsStringCoalesce value then [key] else []) ++ r.2)

/-- `mergeRow`. -/
def mergeRow (existing : JObj) (incoming : List (String × JVal))
    (decisions : List (String × String)) :
    List (String × Option JVal) × List String :=
  mergeRowGo existing decisions incoming

/-! ### The data store and the confirm pipeline -/

/-- The columns of `intake_sessions` the orchestrator reads or writes. -/
structure SessionRow where
  id : String
  status : String
  ai_meta : JObj
  type_confirmed : String
  final_record_type : String
  final_record_id : String

/-- A canonical-record row in one of the four record tables. -/
structure RecordRow where
  table : String
  id : String
  fields : JObj

structure ContactRow where
  id : String
  name : Txt
  phone : Option Txt

structure MediaRow where
  id : String
  intake_session_id : String
  file_url : Txt
  media_type : String
  record_type : Option String
  record_id : Option String
  linked_record_type : Option String
  linked_record_id : Option String

structure TimelineRow where
  record_type : String
  record_id : String
  action : Txt
  details : JObj

/-- The relational store as the orchestrator sees it (row-id generation is a
counter; store operations themselves are modelled as succeeding). -/
structure Db where
  sessions : List SessionRow
  records : List RecordRow
  contacts : List ContactRow
  sequences : SeqTable
  media : List MediaRow
  timeline : List TimelineRow
  nextId : Nat

/-- The object store and clock: move/copy outcomes and public-URL
resolution are the environment's choice. -/
structure StorageEnv where
  year : Nat
  moveOk : Txt → Txt → Bool
  copyOk : Txt → Txt → Bool
  publicUrl : Txt → Txt

def genId (n : Nat) : String := "row" ++ Nat.repr n

/-- Append one timeline row (`createTimelineEvent`). -/
def addTimeline (db : Db) (record_type record_id : String) (action : Txt)
    (details : JObj) : Db :=
  { db with timeline := db.timeline ++ [⟨record_type, record_id, action, details⟩] }

/-- `resolveContactId` (contact-linking service): phone lookup-or-create
first, then name-only creation, else no contact. -/
def resolveContactId (db : Db) (name phone : Option JVal) : Option String × Db :=
  let normalizedPhone := (textOf phone).filter (fun c => c.isDigit)
  let normalizedName := textOf name
  if normalizedPhone ≠ [] then
    match db.contacts.find? (fun c => c.phone = some normalizedPhone) with
    | some c => (some c.id, db)
    | none =>
      let cid := genId db.nextId
      (some cid,
       { db with
         contacts := db.contacts ++
           [{ id := cid,
              name := if normalizedName ≠ [] then normalizedName else "Unknown".toList,
              phone := some normalizedPhone }],
         nextId := db.nextId + 1 })
  else if normalizedName ≠ [] then
    let cid := genId db.nextId
    (some cid,
     { db with
       contacts := db.contacts ++ [{ id := cid, name := normalizedName, phone := none }],
       nextId := db.nextId + 1 })
  else (none, db)

/-- Exact-prefix strip (case-sensitive). -/
def stripTokEq : Txt → Txt → Option Txt
  | [], l => some l
  | _ :: _, [] => none
  | t :: ts, c :: cs => if c = t then stripTokEq ts cs else none

/-- The suffix after the first occurrence of `pat`, if any. -/
def afterMarker (pat : Txt) : Txt → Option Txt
  | [] => stripTokEq pat []
  | c :: cs =>
    match stripTokEq pat (c :: cs) with
    | some r => some r
    | none => afterMarker pat cs

/-- `parseStoragePathFromPublicUrl`: URL parsing and percent-decoding are
abstracted to searching the URL text for the bucket marker; a URL without
the marker (or an unparsable one) yields the empty path. -/
def parseStoragePathFromPublicUrl (url : Txt) : Txt :=
  (afterMarker "/object/public/crm-media/".toList url).getD []

/-- `sourcePath.split("/").pop()`. -/
def lastSlashSeg (p : Txt) : Txt := (p.reverse.takeWhile (fun c => c ≠ '/')).reverse

structure MediaSummary where
  images : Nat
  videos : Nat
  documents : Nat
  moveWarnings : List Txt
deriving DecidableEq

/-- The per-row loop of `moveMediaForSession`: path parse, move with copy
fallback and warnings, public-URL refresh, media-row update, and the
by-type tally. -/
def moveMediaGo (env : StorageEnv) (record_type record_id : String) :
    List MediaRow → Db → MediaSummary × Db
  | [], db => (⟨0, 0, 0, []⟩, db)
  | row :: rest, db =>
    let sourcePath := parseStoragePathFromPublicUrl row.file_url
    if sourcePath = [] then
      let r := moveMediaGo env record_type record_id rest db
      ({ r.1 with moveWarnings :=
          ("Path parse failed for media ".toList ++ row.id.toList) :: r.1.moveWarnings },
       r.2)
    else
      let filename := if lastSlashSeg sourcePath ≠ [] then lastSlashSeg sourcePath
        else row.id.toList
      let destinationPath := "media/".toList ++ record_type.toList ++ '/' ::
        record_id.toList ++ '/' :: filename
      let warns : List Txt :=
        if env.moveOk sourcePath destinationPath then []
        else if env.copyOk sourcePath destinationPath then
          [("Move failed; copied instead for media ".toList ++ row.id.toList)]
        else [("Move/copy failed for media ".toList ++ row.id.toList)]
      let url := env.publicUrl destinationPath
      let db2 := { db with media := db.media.map (fun m =>
        if m.id = row.id then
          { m with record_type := some record_type, record_id := some record_id,
                   linked_record_type := some record_type,
                   linked_record_id := some record_id, file_url := url }
        else m) }
      let r := moveMediaGo env record_type record_id rest db2
      ({ images := (if row.media_type = "image" then 1 else 0) + r.1.images,
         videos := (if row.media_type = "video" then 1 else 0) + r.1.videos,
         documents := (if row.media_type ≠ "image" ∧ row.media_type ≠ "video"
           then 1 else 0) + r.1.documents,
         moveWarnings := warns ++ r.1.moveWarnings }, r.2)

/-- `moveMediaForSession`. -/
def moveMediaForSession (env : StorageEnv) (db : Db) (session_id : String)
    (record_type record_id : String) : MediaSummary × Db :=
  moveMediaGo env record_type record_id
    (db.media.filter (fun m => m.intake_session_id = session_id)) db

/-- Write one column of a row (`update` touches only the named columns). -/
def setKey (row : JObj) (k : String) (v : JVal) : JObj :=
  if (row.find? (fun p => p.1 = k)).isSome then
    row.map (fun p => if p.1 = k then (k, v) else p)
  else row ++ [(k, v)]

/-- Apply an update object: JSON-serialized `undefined` values are dropped,
so those columns stay untouched. -/
def applyUpdate (row : JObj) (upd : List (String × Option JVal)) : JObj :=
  upd.foldl (fun r p =>
    match p.2 with
    | some v => setKey r p.1 v
    | none => r) row

structure ConfirmInput where
  type : ReviewType
  extracted_data : JObj
  merge_decisions : List (String × String)

structure ConfirmResult where
  recordType : String
  recordId : String
  status : String
  changedFields : List String
  mediaSummary : MediaSummary
deriving DecidableEq

/-- The tail of `confirmIntakeSession` after the record write: media
migration, the contact/media/warning timeline events, and marking the
session confirmed with the final metadata. -/
def confirmTail (env : StorageEnv) (db : Db) (session_id : String)
    (recordType recordId rowStatus : String) (changedFields : List String)
    (contactId : Option String) (missingCritical : List String)
    (intakeMeta : JObj) (typeStr : String) : Except Txt ConfirmResult × Db :=
  let mm := moveMediaForSession env db session_id recordType recordId
  let mediaSummary := mm.1
  let db5 :=
    match contactId with
    | some cid =>
      addTimeline mm.2 recordType recordId "Linked to contact".toList
        [("contact_id", .str cid.toList)]
    | none => mm.2
  let db6 := addTimeline db5 recordType recordId
    ("Media attached: ".toList ++ natToTxt mediaSummary.images ++
      " images, ".toList ++ natToTxt mediaSummary.videos ++
      " videos, ".toList ++ natToTxt mediaSummary.documents ++ " documents".toList)
    [("session_id", .str session_id.toList),
     ("images", .num mediaSummary.images),
     ("videos", .num mediaSummary.videos),
     ("documents", .num mediaSummary.documents),
     ("warning", .bool (mediaSummary.moveWarnings ≠ []))]
  let db7 :=
    if mediaSummary.moveWarnings ≠ [] then
      addTimeline db6 recordType recordId "Media move warning".toList
        [("warnings", .arr (mediaSummary.moveWarnings.map JVal.str))]
    else db6
  let mergedMeta :=
    setKey (setKey intakeMeta "missing_critical_fields"
        (.arr (missingCritical.map (fun s => .str s.toList))))
      "final_row_status" (.str rowStatus.toList)
  let db8 := { db7 with sessions := db7.sessions.map (fun s =>
    if s.id = session_id then
      { s with status := "confirmed", type_confirmed := typeStr,
               final_record_type := recordType, final_record_id := recordId,
               ai_meta := mergedMeta }
    else s) }
  (.ok { recordType := recordType, recordId := recordId, status := rowStatus,
         changedFields := changedFields, mediaSummary := mediaSummary }, db8)

/-- `confirmIntakeSession`: precondition checks, sanitize, contact resolve,
missing-critical status, create-or-merge, then the common tail.  A thrown
error is an `.error` result leaving the store as it was at the throw (the
steps are not wrapped in a transaction). -/
def confirmIntakeSession (env : StorageEnv) (db : Db) (session_id : String)
    (mode : Mode) (target_record_id : Option String) (input : Option ConfirmInput) :
    Except Txt ConfirmResult × Db :=
  match input with
  | none => (.error "confirm input is required".toList, db)
  | some inp =>
    let recordType := tableByType inp.type
    match db.sessions.find? (fun s => s.id = session_id) with
    | none => (.error "Intake session not found".toList, db)
    | some intake =>
      if intake.status = "confirmed" then
        (.error "Intake session already confirmed".toList, db)
      else
        let sanitized := sanitizeForType inp.type inp.extracted_data
        let nameCand := jsOr (jget sanitized "name")
          (jsOr (jget inp.extracted_data "contact_name") (jget inp.extracted_data "name"))
        let phoneCand := jsOr (jget sanitized "phone")
          (jsOr (jget inp.extracted_data "contact_phone") (jget inp.extracted_data "phone"))
        let rc := resolveContactId db nameCand phoneCand
        let contactId := rc.1
        let db1 := rc.2
        let missingCritical := computeMissingCritical inp.type sanitized
        let rowStatus := if missingCritical.length > 0 then "needs_review" else "active"
        match mode with
        | .create_new =>
          let nc := nextCode db1.sequences (codePrefixByType inp.type) env.year
          let recordId := genId db1.nextId
          let newFields : JObj := sanitized ++
            [("contact_id", match contactId with
              | some c => .str c.toList
              | none => .null),
             ("code", .str nc.1),
             ("status", .str rowStatus.toList),
             ("intake_session_id", .str session_id.toList)]
          let newRow : RecordRow :=
            { table := recordType, id := recordId, fields := newFields }
          let db2 := { db1 with
            sequences := nc.2,
            records := db1.records ++ [newRow],
            nextId := db1.nextId + 1 }
          let changedFields := sanitized.map (fun p => p.1) ++
            (if contactId.isSome then ["contact_id"] else [])
          let db3 := addTimeline db2 recordType recordId
            "Record created from intake".toList
            [("session_id", .str session_id.toList),
             ("type", .str (reviewTypeName inp.type).toList),
             ("row_status", .str rowStatus.toList)]
          confirmTail env db3 session_id recordType recordId rowStatus changedFields
            contactId missingCritical intake.ai_meta (reviewTypeName inp.type)
        | .update_existing =>
          match target_record_id with
          | none => (.error "target_record_id is required for update_existing".toList, db1)
          | some tid =>
            match db1.records.find? (fun r => r.table = recordType ∧ r.id = tid) with
            | none => (.error "Target record not found".toList, db1)
            | some existing =>
              let merged := mergeRow existing.fields sanitized inp.merge_decisions
              let mergedWithContact := merged.1 ++
                (match contactId with
                 | some c => [("contact_id", some (.str c.toList))]
                 | none => [])
              let changedFields := merged.2 ++
                (match contactId with
                 | some c =>
                   if (if jsTruthy (jget existing.fields "contact_id") then
                        jsStringCoalesce (jget existing.fields "contact_id") else []) ≠
                      c.toList then ["contact_id"] else []
                 | none => [])
              let upd := mergedWithContact ++ [("status", some (.str rowStatus.toList))]
              let db2 := { db1 with records := db1.records.map (fun r =>
                if r.table = recordType ∧ r.id = tid then
                  { r with fields := applyUpdate r.fields upd }
                else r) }
              let db3 := addTimeline db2 recordType tid
                "Record updated from intake".toList
                [("session_id", .str session_id.toList),
                 ("changed_fields", .arr (changedFields.map (fun s => .str s.toList))),
                 ("row_status", .str rowStatus.toList)]
              confirmTail env db3 session_id recordType tid rowStatus changedFields
                contactId missingCritical intake.ai_meta (reviewTypeName inp.type)

/-! ### Claim C2: re-confirming an already-confirmed session -/

/-- C2: for every store and session whose status is `confirmed`, calling
`confirmIntakeSession` in either mode fails with the already-confirmed
condition and performs no writes: the store comes back unchanged, so no
canonical record, contact, code sequence, media row, timeline row or session
row is created or modified. -/
theorem confirm_already_confirmed (env : StorageEnv) (db : Db) (session_id : String)
    (mode : Mode) (target : Option String) (inp : ConfirmInput) (s : SessionRow)
    (hs : db.sessions.find? (fun r => r.id = session_id) = some s)
    (hc : s.status = "confirmed") :
    confirmIntakeSession env db session_id mode target (some inp) =
      (.error "Intake session already confirmed".toList, db) := by
  simp only [confirmIntakeSession, hs]
  rw [if_pos hc]

def c2env : StorageEnv :=
  { year := 2025, moveOk := fun _ _ => true, copyOk := fun _ _ => true,
    publicUrl := fun p => p }

def c2row : SessionRow :=
  { id := "s1", status := "confirmed", ai_meta := [], type_confirmed := "",
    final_record_type := "", final_record_id := "" }

def c2db : Db :=
  { sessions := [c2row],
    records := [], contacts := [], sequences := [], media := [], timeline := [],
    nextId := 0 }

/-- Witness for C2 at a one-session store whose session is confirmed. -/
theorem confirm_already_confirmed_witness :
    confirmIntakeSession c2env c2db "s1" .create_new none
        (some { type := .sale, extracted_data := [], merge_decisions := [] }) =
      (.error "Intake session already confirmed".toList, c2db) :=
  confirm_already_confirmed c2env c2db "s1" .create_new none
    { type := .sale, extracted_data := [], merge_decisions := [] } c2row rfl rfl

/-! ### Frame lemmas for the update path -/

theorem resolveContactId_records (db : Db) (n p : Option JVal) :
    ((resolveContactId db n p).2).records = db.records := by
  simp only [resolveContactId]
  repeat' split
  all_goals rfl

theorem moveMediaGo_records (env : StorageEnv) (rt rid : String) :
    ∀ (rows : List MediaRow) (db : Db),
      ((moveMediaGo env rt rid rows db).2).records = db.records := by
  intro rows
  induction rows with
  | nil => intro db; rfl
  | cons row rest ih =>
    intro db
    rw [moveMediaGo]
    split
    · exact ih db
    · exact ih _

theorem confirmTail_records (env : StorageEnv) (db : Db) (sid rt rid st : String)
    (cf : List String) (cid : Option String) (mc : List String) (meta : JObj)
    (ts : String) :
    ((confirmTail env db sid rt rid st cf cid mc meta ts).2).records = db.records := by
  unfold confirmTail moveMediaForSession addTimeline
  repeat' split <;> simp [moveMediaGo_records]

theorem confirmTail_fst (env : StorageEnv) (db : Db) (sid rt rid st : String)
    (cf : List String) (cid : Option String) (mc : List String) (meta : JObj)
    (ts : String) :
    (confirmTail env db sid rt rid st cf cid mc meta ts).1 =
      .ok { recordType := rt, recordId := rid, status := st, changedFields := cf,
            mediaSummary := (moveMediaForSession env db sid rt rid).1 } := by
  unfold confirmTail
  repeat' split <;> rfl

theorem jget_mapReplace_ne (k : String) (v : JVal) (col : String) (h : col ≠ k) :
    ∀ row : JObj,
      jget (row.map (fun p => if p.1 = k then (k, v) else p)) col = jget row col := by
  intro row
  induction row with
  | nil => rfl
  | cons p ps ih =>
    unfold jget at ih ⊢
    simp only [List.map_cons, List.find?_cons]
    by_cases hp : p.1 = k
    · rw [if_pos hp]
      have h1 : (decide (k = col)) = false := by simp [Ne.symm h]
      have h2 : (decide (p.1 = col)) = false := by rw [hp]; simp [Ne.symm h]
      simp only [h1, h2]
      exact ih
    · rw [if_neg hp]
      by_cases hc : p.1 = col
      · simp [hc]
      · simp only [show (decide (p.1 = col)) = false by simp [hc]]
        exact ih

theorem jget_mapReplace_self (k : String) (v : JVal) :
    ∀ row : JObj, (List.find? (fun p => decide (p.1 = k)) row).isSome = true →
      jget (row.map (fun p => if p.1 = k then (k, v) else p)) k = some v := by
  intro row
  induction row with
  | nil => intro hsome; simp at hsome
  | cons p ps ih =>
    intro hsome
    unfold jget at ih ⊢
    simp only [List.map_cons, List.find?_cons]
    by_cases hp : p.1 = k
    · simp [hp]
    · rw [if_neg hp]
      simp only [show (decide (p.1 = k)) = false by simp [hp]]
      have htail : (List.find? (fun p => decide (p.1 = k)) ps).isSome = true := by
        rw [List.find?_cons] at hsome
        simp only [show (decide (p.1 = k)) = false by simp [hp]] at hsome
        exact hsome
      exact ih htail

theorem setKey_jget_ne (row : JObj) (k : String) (v : JVal) (col : String)
    (h : col ≠ k) : jget (setKey row k v) col = jget row col := by
  unfold setKey
  split
  · exact jget_mapReplace_ne k v col h row
  · unfold jget
    rw [List.find?_append]
    have hnone : (List.find? (fun p => decide (p.1 = col)) [(k, v)]) = none := by
      simp [Ne.symm h]
    rw [hnone]
    simp

theorem setKey_jget_self (row : JObj) (k : String) (v : JVal) :
    jget (setKey row k v) k = some v := by
  unfold setKey
  split
  · rename_i hsome
    exact jget_mapReplace_self k v row hsome
  · unfold jget
    rw [List.find?_append]
    rename_i hnone
    have hrow : (List.find? (fun p => decide (p.1 = k)) row) = none := by
      cases hf : List.find? (fun p => decide (p.1 = k)) row with
      | none => rfl
      | some q => rw [hf] at hnone; simp at hnone
    rw [hrow]
    simp

theorem applyUpdate_jget_not_mem (f : String) :
    ∀ (upd : List (String × Option JVal)) (row : JObj),
      f ∉ upd.map Prod.fst →
      jget (applyUpdate row upd) f = jget row f := by
  intro upd
  induction upd with
  | nil => intro row _; rfl
  | cons p rest ih =>
    intro row hf
    simp only [List.map_cons, List.mem_cons] at hf
    push_neg at hf
    unfold applyUpdate at ih ⊢
    rw [List.foldl_cons]
    match hp : p.2 with
    | some v =>
      rw [ih _ hf.2, setKey_jget_ne _ _ _ _ hf.1]
    | none => rw [ih _ hf.2]

theorem applyUpdate_jget_const (f : String) :
    ∀ (upd : List (String × Option JVal)) (row : JObj),
      (∀ pair ∈ upd, pair.1 = f → pair.2 = jget row f) →
      jget (applyUpdate row upd) f = jget row f := by
  intro upd
  induction upd with
  | nil => intro row _; rfl
  | cons p rest ih =>
    intro row hconst
    unfold applyUpdate at ih ⊢
    rw [List.foldl_cons]
    by_cases hpf : p.1 = f
    · match hp : p.2 with
      | some v =>
        have hv := hconst p (List.mem_cons_self _ _) hpf
        rw [hp] at hv
        have hrow : jget (setKey row p.1 v) f = jget row f := by
          rw [hpf, setKey_jget_self, hv]
        rw [ih (setKey row p.1 v) ?_, hrow]
        intro q hq hqf
        rw [hrow]
        exact hconst q (List.mem_cons_of_mem _ hq) hqf
      | none =>
        exact ih row (fun q hq hqf => hconst q (List.mem_cons_of_mem _ hq) hqf)
    · match hp : p.2 with
      | some v =>
        have hrow : jget (setKey row p.1 v) f = jget row f :=
          setKey_jget_ne _ _ _ _ (Ne.symm hpf)
        rw [ih (setKey row p.1 v) ?_, hrow]
        intro q hq hqf
        rw [hrow]
        exact hconst q (List.mem_cons_of_mem _ hq) hqf
      | none =>
        exact ih row (fun q hq hqf => hconst q (List.mem_cons_of_mem _ hq) hqf)

theorem mergeRowGo_keys (ex : JObj) (dec : List (String × String)) :
    ∀ inc, ((mergeRowGo ex dec inc).1).map Prod.fst = inc.map Prod.fst := by
  intro inc
  induction inc with
  | nil => rfl
  | cons p rest ih =>
    match p with
    | (key, next) =>
      unfold mergeRowGo
      simp only [List.map_cons]
      rw [ih]

theorem sanitizeForType_keys (t : ReviewType) (input : JObj) :
    (sanitizeForType t input).map Prod.fst = allowedFieldsByType t := by
  unfold sanitizeForType
  rw [List.map_map]
  conv_rhs => rw [← List.map_id (allowedFieldsByType t)]
  refine List.map_congr_left ?_
  intro field _
  simp only [Function.comp, id]
  repeat' split
  all_goals rfl

theorem mergeRowGo_cons_keep (ex : JObj) (dec : List (String × String)) (f : String)
    (next : JVal) (rest : List (String × JVal))
    (hdec : ((dec.find? (fun p => p.1 = f)).map (fun p => p.2)) = some "keep_existing") :
    mergeRowGo ex dec ((f, next) :: rest) =
      ((f, jget ex f) :: (mergeRowGo ex dec rest).1, (mergeRowGo ex dec rest).2) := by
  simp [mergeRowGo, hdec]

theorem mergeRowGo_cons_struct (ex : JObj) (dec : List (String × String))
    (key : String) (next : JVal) (rest : List (String × JVal)) :
    ∃ v ch, mergeRowGo ex dec ((key, next) :: rest) =
      ((key, v) :: (mergeRowGo ex dec rest).1, ch ++ (mergeRowGo ex dec rest).2) ∧
      ∀ x ∈ ch, x = key := by
  refine ⟨_, _, rfl, ?_⟩
  intro x hx
  by_cases hc : jsStringCoalesce (jget ex key) ≠
      jsStringCoalesce (if ((dec.find? (fun p => p.1 = key)).map (fun p => p.2)).getD
          (if key = "notes" then "append" else "replace_with_new") = "replace_with_new"
        then some next
        else if ((dec.find? (fun p => p.1 = key)).map (fun p => p.2)).getD
            (if key = "notes" then "append" else "replace_with_new") = "append" ∧
            key = "notes" then
          some (.str
            (if textOf (jget ex key) ≠ [] ∧ textOf (some next) ≠ [] then
              textOf (jget ex key) ++ '\n' :: textOf (some next)
             else if textOf (jget ex key) ≠ [] then textOf (jget ex key)
             else textOf (some next)))
        else jget ex key)
  · rw [if_pos hc] at hx
    simpa using hx
  · rw [if_neg hc] at hx
    simp at hx

theorem mergeRowGo_keep (ex : JObj) (dec : List (String × String)) (f : String)
    (hdec : ((dec.find? (fun p => p.1 = f)).map (fun p => p.2)) = some "keep_existing") :
    ∀ inc : List (String × JVal),
      (∀ pair ∈ (mergeRowGo ex dec inc).1, pair.1 = f → pair.2 = jget ex f) ∧
      f ∉ (mergeRowGo ex dec inc).2 := by
  intro inc
  induction inc with
  | nil =>
    constructor
    · intro pair hmem
      simp [mergeRowGo] at hmem
    · simp [mergeRowGo]
  | cons p rest ih =>
    match p with
    | (key, next) =>
      by_cases hkey : key = f
      · subst hkey
        rw [mergeRowGo_cons_keep ex dec key next rest hdec]
        constructor
        · intro pair hmem hpf
          rcases List.mem_cons.mp hmem with hhead | htail
          · rw [hhead]
          · exact ih.1 pair htail hpf
        · exact ih.2
      · obtain ⟨v, ch, heq, hch⟩ := mergeRowGo_cons_struct ex dec key next rest
        rw [heq]
        constructor
        · intro pair hmem hpf
          rcases List.mem_cons.mp hmem with hhead | htail
          · rw [hhead] at hpf
            exact absurd hpf hkey
          · exact ih.1 pair htail hpf
        · intro hmem
          rcases List.mem_append.mp hmem with hin | htail
          · exact hkey (hch f hin).symm
          · exact ih.2 htail

theorem find?_map_pred {α : Type} (p : α → Bool) (g : α → α)
    (hg : ∀ a, p (g a) = p a) :
    ∀ l : List α, (l.map g).find? p = (l.find? p).map g := by
  intro l
  induction l with
  | nil => rfl
  | cons a t ih =>
    cases hpa : p a with
    | true =>
      rw [List.map_cons, List.find?_cons_of_pos _ (by rw [hg]; exact hpa),
        List.find?_cons_of_pos _ hpa]
      rfl
    | false =>
      rw [List.map_cons, List.find?_cons_of_neg _ (by rw [hg, hpa]; exact Bool.false_ne_true),
        List.find?_cons_of_neg _ (by rw [hpa]; exact Bool.false_ne_true)]
      exact ih

theorem addTimeline_records (db : Db) (rt rid : String) (msg : Txt) (meta : JObj) :
    (addTimeline db rt rid msg meta).records = db.records := rfl

theorem contact_id_not_allowed (t : ReviewType) :
    "contact_id" ∉ allowedFieldsByType t := by
  cases t <;> decide

theorem status_not_allowed (t : ReviewType) :
    "status" ∉ allowedFieldsByType t := by
  cases t <;> decide

theorem update_branch_frame
    (records : List RecordRow) (T tid : String) (existing : RecordRow)
    (keep : String → Prop)
    (m1 : List (String × Option JVal)) (m2 : List String)
    (contactE : List (String × Option JVal)) (contactCh : List String)
    (sv : JVal) (allowed : List String)
    (hfind : records.find? (fun r => r.table = T ∧ r.id = tid) = some existing)
    (hkeys : m1.map Prod.fst = allowed)
    (hkeepv : ∀ f, keep f → ∀ pair ∈ m1, pair.1 = f → pair.2 = jget existing.fields f)
    (hkeepc : ∀ f, keep f → f ∉ m2)
    (hcE : ∀ pair ∈ contactE, pair.1 = "contact_id")
    (hcCh : ∀ x ∈ contactCh, x = "contact_id")
    (hca : "contact_id" ∉ allowed) (hsa : "status" ∉ allowed) :
    ∃ newFields,
      ((records.map (fun r =>
          if r.table = T ∧ r.id = tid then
            { table := r.table, id := r.id,
              fields := applyUpdate r.fields ((m1 ++ contactE) ++ [("status", some sv)]) }
          else r)).find? (fun r => r.table = T ∧ r.id = tid)) =
        some { existing with fields := newFields } ∧
      (∀ r ∈ records, ¬(r.table = T ∧ r.id = tid) →
        r ∈ records.map (fun r =>
          if r.table = T ∧ r.id = tid then
            { table := r.table, id := r.id,
              fields := applyUpdate r.fields ((m1 ++ contactE) ++ [("status", some sv)]) }
          else r)) ∧
      (∀ col, col ∉ allowed → col ≠ "status" → col ≠ "contact_id" →
        jget newFields col = jget existing.fields col) ∧
      (∀ f, f ∈ allowed → keep f →
        jget newFields f = jget existing.fields f ∧ f ∉ m2 ++ contactCh) := by
  have hg0 : ∀ r : RecordRow,
      (fun r : RecordRow => decide (r.table = T ∧ r.id = tid))
        ((fun r : RecordRow =>
          if r.table = T ∧ r.id = tid then
            { table := r.table, id := r.id,
              fields := applyUpdate r.fields ((m1 ++ contactE) ++ [("status", some sv)]) }
          else r) r) =
      (fun r : RecordRow => decide (r.table = T ∧ r.id = tid)) r := by
    intro r
    dsimp only
    by_cases hr : r.table = T ∧ r.id = tid
    · rw [if_pos hr]
    · rw [if_neg hr]
  refine ⟨applyUpdate existing.fields ((m1 ++ contactE) ++ [("status", some sv)]),
    ?_, ?_, ?_, ?_⟩
  · rw [find?_map_pred _ _ hg0 records, hfind]
    have hp := List.find?_some hfind
    have hex : existing.table = T ∧ existing.id = tid := of_decide_eq_true hp
    simp only [Option.map_some', if_pos hex]
  · intro r hr hnp
    exact List.mem_map.mpr ⟨r, hr, if_neg hnp⟩
  · intro col hcaL hcs hcc
    apply applyUpdate_jget_not_mem
    intro hmem
    simp only [List.map_append, List.mem_append] at hmem
    rcases hmem with (h1 | h2) | h3
    · rw [hkeys] at h1
      exact hcaL h1
    · obtain ⟨pair, hp, hpe⟩ := List.mem_map.mp h2
      have := hcE pair hp
      rw [hpe] at this
      exact hcc this
    · have : col = "status" := by simpa using h3
      exact hcs this
  · intro f hfa hkf
    constructor
    · apply applyUpdate_jget_const
      intro pair hp hpf
      rcases List.mem_append.mp hp with hp' | h3
      · rcases List.mem_append.mp hp' with h1 | h2
        · exact hkeepv f hkf pair h1 hpf
        · exfalso
          have := hcE pair h2
          rw [hpf] at this
          exact hca (this ▸ hfa)
      · exfalso
        have hp3 : pair = ("status", some sv) := by simpa using h3
        rw [hp3] at hpf
        have hf : f = "status" := by simpa using hpf.symm
        exact hsa (hf ▸ hfa)
    · intro hmem
      rcases List.mem_append.mp hmem with h1 | h2
      · exact hkeepc f hkf h1
      · have := hcCh f h2
        exact hca (this ▸ hfa)

/-- C10: frame property of `confirmIntakeSession` in `update_existing` mode.
When the session exists and is not yet confirmed and the target record is
found, the confirmed store contains the target row updated in place: every
row other than the target survives unchanged; on the target row every column
outside the type's allow-list other than `status` and `contact_id` keeps its
previous value; and every allow-listed field whose merge decision is
`keep_existing` retains its existing value and never appears among the
returned `changedFields`. -/
theorem confirmIntakeSession_update_frame
    (env : StorageEnv) (db : Db) (sid tid : String) (inp : ConfirmInput)
    (intake : SessionRow) (existing : RecordRow) (res : ConfirmResult) (db' : Db)
    (hs : db.sessions.find? (fun s => s.id = sid) = some intake)
    (hc : ¬ intake.status = "confirmed")
    (hfind : db.records.find? (fun r => r.table = tableByType inp.type ∧ r.id = tid) =
      some existing)
    (hres : confirmIntakeSession env db sid .update_existing (some tid) (some inp) =
      (.ok res, db')) :
    ∃ newFields,
      db'.records.find? (fun r => r.table = tableByType inp.type ∧ r.id = tid) =
        some { existing with fields := newFields } ∧
      (∀ r ∈ db.records, ¬(r.table = tableByType inp.type ∧ r.id = tid) →
        r ∈ db'.records) ∧
      (∀ col, col ∉ allowedFieldsByType inp.type → col ≠ "status" →
        col ≠ "contact_id" → jget newFields col = jget existing.fields col) ∧
      (∀ f, f ∈ allowedFieldsByType inp.type →
        ((inp.merge_decisions.find? (fun p => p.1 = f)).map (fun p => p.2)) =
          some "keep_existing" →
        jget newFields f = jget existing.fields f ∧ f ∉ res.changedFields) := by
  simp only [confirmIntakeSession, hs, hc, if_false, resolveContactId_records, hfind] at hres
  have h1 := congrArg Prod.fst hres
  have h2 := congrArg Prod.snd hres
  rw [confirmTail_fst] at h1
  have h1a := Except.ok.inj (h1.trans rfl)
  subst h1a
  have h2a := h2.trans rfl
  subst h2a
  simp only [confirmTail_records, addTimeline_records]
  rcases hcid : (resolveContactId db
      (jsOr (jget (sanitizeForType inp.type inp.extracted_data) "name")
        (jsOr (jget inp.extracted_data "contact_name") (jget inp.extracted_data "name")))
      (jsOr (jget (sanitizeForType inp.type inp.extracted_data) "phone")
        (jsOr (jget inp.extracted_data "contact_phone") (jget inp.extracted_data "phone")))).1
    with _ | c
  · refine update_branch_frame db.records (tableByType inp.type) tid existing
      (fun f => ((inp.merge_decisions.find? (fun p => p.1 = f)).map (fun p => p.2)) =
        some "keep_existing")
      ((mergeRow existing.fields (sanitizeForType inp.type inp.extracted_data)
        inp.merge_decisions).1)
      ((mergeRow existing.fields (sanitizeForType inp.type inp.extracted_data)
        inp.merge_decisions).2)
      _ _ _ (allowedFieldsByType inp.type) hfind ?_ ?_ ?_ ?_ ?_
      (contact_id_not_allowed inp.type) (status_not_allowed inp.type)
    · simp only [mergeRow]
      rw [mergeRowGo_keys, sanitizeForType_keys]
    · exact fun f hk => (mergeRowGo_keep existing.fields inp.merge_decisions f hk
        (sanitizeForType inp.type inp.extracted_data)).1
    · exact fun f hk => (mergeRowGo_keep existing.fields inp.merge_decisions f hk
        (sanitizeForType inp.type inp.extracted_data)).2
    · show ∀ pair ∈ ([] : List (String × Option JVal)), pair.1 = "contact_id"
      simp
    · show ∀ x ∈ ([] : List String), x = "contact_id"
      simp
  · refine update_branch_frame db.records (tableByType inp.type) tid existing
      (fun f => ((inp.merge_decisions.find? (fun p => p.1 = f)).map (fun p => p.2)) =
        some "keep_existing")
      ((mergeRow existing.fields (sanitizeForType inp.type inp.extracted_data)
        inp.merge_decisions).1)
      ((mergeRow existing.fields (sanitizeForType inp.type inp.extracted_data)
        inp.merge_decisions).2)
      _ _ _ (allowedFieldsByType inp.type) hfind ?_ ?_ ?_ ?_ ?_
      (contact_id_not_allowed inp.type) (status_not_allowed inp.type)
    · simp only [mergeRow]
      rw [mergeRowGo_keys, sanitizeForType_keys]
    · exact fun f hk => (mergeRowGo_keep existing.fields inp.merge_decisions f hk
        (sanitizeForType inp.type inp.extracted_data)).1
    · exact fun f hk => (mergeRowGo_keep existing.fields inp.merge_decisions f hk
        (sanitizeForType inp.type inp.extracted_data)).2
    · show ∀ pair ∈ [(("contact_id" : String), some (JVal.str c.toList))],
        pair.1 = "contact_id"
      simp
    · show ∀ x ∈ (if (if jsTruthy (jget existing.fields "contact_id") = true then
          jsStringCoalesce (jget existing.fields "contact_id") else []) ≠ c.toList then
          ["contact_id"] else ([] : List String)), x = "contact_id"
      intro x hx
      split at hx <;> (try split at hx) <;>
        first
        | simpa using hx
        | simp at hx

def c10row : SessionRow :=
  { id := "s1", status := "pending_review", ai_meta := [], type_confirmed := "",
    final_record_type := "", final_record_id := "" }

def c10rec : RecordRow :=
  { table := "clients", id := "r1",
    fields := [("name", .str "Old Name".toList), ("custom_note", .str "keep me".toList)] }

def c10db : Db :=
  { sessions := [c10row], records := [c10rec], contacts := [], sequences := [],
    media := [], timeline := [], nextId := 0 }

def c10inp : ConfirmInput :=
  { type := .client,
    extracted_data := [("name", .str "Ali".toList)],
    merge_decisions := [("name", "keep_existing")] }

def c10out : Except Txt ConfirmResult × Db :=
  confirmIntakeSession c2env c10db "s1" .update_existing (some "r1") (some c10inp)

def c10res : ConfirmResult :=
  match c10out.1 with
  | .ok r => r
  | .error _ => { recordType := "", recordId := "", status := "", changedFields := [],
                  mediaSummary := ⟨0, 0, 0, []⟩ }

/-- Witness for the update frame theorem at a one-record store with a
`keep_existing` decision on `name`. -/
theorem confirmIntakeSession_update_frame_witness :
    (c10db.sessions.find? (fun s => s.id = "s1") = some c10row ∧
     ¬ c10row.status = "confirmed" ∧
     c10db.records.find? (fun r => r.table = tableByType c10inp.type ∧ r.id = "r1") =
       some c10rec ∧
     confirmIntakeSession c2env c10db "s1" .update_existing (some "r1") (some c10inp) =
       (.ok c10res, c10out.2)) ∧
    (∃ newFields,
      (c10out.2).records.find?
          (fun r => r.table = tableByType c10inp.type ∧ r.id = "r1") =
        some { c10rec with fields := newFields } ∧
      (∀ r ∈ c10db.records, ¬(r.table = tableByType c10inp.type ∧ r.id = "r1") →
        r ∈ (c10out.2).records) ∧
      (∀ col, col ∉ allowedFieldsByType c10inp.type → col ≠ "status" →
        col ≠ "contact_id" → jget newFields col = jget c10rec.fields col) ∧
      (∀ f, f ∈ allowedFieldsByType c10inp.type →
        ((c10inp.merge_decisions.find? (fun p => p.1 = f)).map (fun p => p.2)) =
          some "keep_existing" →
        jget newFields f = jget c10rec.fields f ∧ f ∉ c10res.changedFields)) :=
  ⟨⟨rfl, by decide, rfl, rfl⟩,
   confirmIntakeSession_update_frame c2env c10db "s1" "r1" c10inp c10row c10rec
     c10res c10out.2 rfl (by decide) rfl rfl⟩

/-! ### Claim C1: totality of the validator and the sanitizer -/

/-- Schema acceptance per intake type: the type's zod parse succeeds
(`other` skips the schema entirely). -/
def schemaParseOk : IntakeType → JObj → Bool
  | .other, _ => true
  | .sale, o => (saleParse o).isOk
  | .rent, o => (rentParse o).isOk
  | .buyer, o => (buyerParse o).isOk
  | .client, o => (clientParse o).isOk

/-- C1 counterexample: the Validator/Normalizer is not a total function with
safe defaults on every input: the sale schema requires the `listing_type`
literal, so the empty extraction map makes the zod `parse` throw and
`validateAndNormalize` fails instead of returning defaulted fields. -/
theorem validateAndNormalize_throws_cex :
    (validateAndNormalize .sale [] []).isOk = false := by decide

/-- C1 amended: `validateAndNormalize` returns a result exactly when the
type's zod schema accepts the extraction map (always, for type `other`),
throwing otherwise; the Orchestrator's `sanitizeForType` is total and
defaults every field: for every type and extraction map its output binds
precisely the type's allow-listed fields, in order. -/
theorem validateAndNormalize_isOk_iff :
    (∀ (t : IntakeType) (o : JObj) (txt : Txt),
      (validateAndNormalize t o txt).isOk = schemaParseOk t o) ∧
    (∀ (rt : ReviewType) (o : JObj),
      (sanitizeForType rt o).map Prod.fst = allowedFieldsByType rt) := by
  constructor
  · intro t o txt
    cases t with
    | other => rfl
    | sale =>
      cases hp : saleParse o <;>
        simp [validateAndNormalize, hp, schemaParseOk, Except.isOk, Except.toBool]
    | rent =>
      cases hp : rentParse o <;>
        simp [validateAndNormalize, hp, schemaParseOk, Except.isOk, Except.toBool]
    | buyer =>
      cases hp : buyerParse o <;>
        simp [validateAndNormalize, hp, schemaParseOk, Except.isOk, Except.toBool]
    | client =>
      cases hp : clientParse o <;>
        simp [validateAndNormalize, hp, schemaParseOk, Except.isOk, Except.toBool]
  · exact sanitizeForType_keys

/-! ### The segmenter (heuristicSplitListings / detectMultipleListings) -/

structure MultiListingResult where
  multi_listing : Bool
  segments : List Txt
deriving DecidableEq

mutual

/-- Split on maximal runs of `sep`, the JS `split(/sep+/)`: interior empty
pieces never arise, while a leading or trailing separator run still yields an
empty first or last piece. -/
def splitRunsGo (sep : Char) : Txt → Txt → List Txt
  | [], acc => [acc.reverse]
  | x :: xs, acc =>
    if x = sep then acc.reverse :: splitRunsSkip sep xs
    else splitRunsGo sep xs (x :: acc)

/-- Inside a separator run: drop further separators, then resume a piece. -/
def splitRunsSkip (sep : Char) : Txt → List Txt
  | [] => [[]]
  | x :: xs => if x = sep then splitRunsSkip sep xs else splitRunsGo sep xs [x]

end

def splitRuns (sep : Char) (s : Txt) : List Txt := splitRunsGo sep s []

def numPunct (c : Char) : Bool := c = ')' || c = '.' || c = '-'

def bulletChar (c : Char) : Bool := c = '-' || c = '*' || c = '•'

/-- `\d+[\).\-]` at the head of the suffix: the digit run is maximal because
no digit belongs to the closing class, so backtracking cannot shorten it. -/
def digitsThenPunct : Txt → Bool
  | [] => false
  | c :: rest =>
    c.isDigit && (match rest.dropWhile Char.isDigit with
      | p :: _ => numPunct p
      | [] => false)

/-- `[-*•]\s+` at the head of the suffix. -/
def bulletThenSpace : Txt → Bool
  | b :: d :: _ => bulletChar b && jsSpace d
  | _ => false

/-- The JS `\b` right after a token whose last character is `lastC`: the
word-ness of the two sides must differ, the end of input being non-word. -/
def boundaryAfter (lastC : Char) : Txt → Bool
  | [] => isWordChar lastC
  | n :: _ => isWordChar lastC != isWordChar n

/-- One keyword alternative of the numbered-split lookahead: the keyword
(case-insensitively) followed by a `\b`. For the Arabic keywords the last
character is not a JS word character, so the boundary demands a word
character right after the keyword. -/
def kwAhead (kw : Txt) (lastC : Char) (s : Txt) : Bool :=
  match stripTokCI kw s with
  | none => false
  | some rest => boundaryAfter lastC rest

def numberedKw (s : Txt) : Bool :=
  kwAhead "listing".toList 'g' s || kwAhead "unit".toList 't' s ||
  kwAhead "property".toList 'y' s ||
  kwAhead "شقة".toList 'ة' s || kwAhead "فيلا".toList 'ا' s ||
  kwAhead "دوبلكس".toList 'س' s || kwAhead "وحدة".toList 'ة' s

/-- The lookahead of `split(/\n(?=(?:\d+[\).\-]|[-*•]\s+|(?:listing|unit|property|شقة|فيلا|دوبلكس|وحدة)\b))/i)`. -/
def numberedLookahead (s : Txt) : Bool :=
  digitsThenPunct s || bulletThenSpace s || numberedKw s

/-- Split on every newline whose suffix satisfies the lookahead; the newline
is consumed, the lookahead is not. -/
def splitNumberedGo : Txt → Txt → List Txt
  | [], acc => [acc.reverse]
  | c :: rest, acc =>
    if c = '\n' && numberedLookahead rest then
      acc.reverse :: splitNumberedGo rest []
    else splitNumberedGo rest (c :: acc)

def splitNumbered (s : Txt) : List Txt := splitNumberedGo s []

/-- Match count of `/(?:\b\d{5,}\b)\s*(?:egp|جنيه)?/gi`: maximal digit runs
of length at least five flanked by non-word characters or the ends.  The
optional currency suffix consumes only whitespace and letters, so it cannot
add or remove matches. `run` is the length of the current left-bounded run
(`0` when no such run is open), `prevW` the word-ness of the previous
character. -/
def priceCountGo : Txt → Bool → Nat → Nat
  | [], _, run => if 5 ≤ run then 1 else 0
  | c :: rest, prevW, run =>
    if c.isDigit then
      if 0 < run then priceCountGo rest true (run + 1)
      else if prevW then priceCountGo rest true 0
      else priceCountGo rest true 1
    else
      (if 5 ≤ run && !isWordChar c then 1 else 0) +
        priceCountGo rest (isWordChar c) 0

def priceCount (s : Txt) : Nat := priceCountGo s false 0

/-- The character class `[\p{L}\d\- ]` of the area regex, with `\p{L}`
restricted to the Latin letters and the Arabic letter block that occur in
this codebase. -/
def areaClass (c : Char) : Bool :=
  c.isAlpha || c.isDigit || c = '-' || c = ' ' || ('ء' ≤ c && c ≤ 'ي')

/-- Consumed length of `\s+[\p{L}\d\- ]+` at the head of the suffix: the
greedy whitespace run first tries to stop at the first non-space character;
failing that it backtracks to the last `' '` of the run, the only whitespace
character inside the class. -/
def areaTailLen (rest : Txt) : Option Nat :=
  let sp := rest.takeWhile jsSpace
  if sp.isEmpty then none
  else
    match rest.dropWhile jsSpace with
    | c :: cs =>
      if areaClass c then
        some (sp.length + 1 + (cs.takeWhile areaClass).length)
      else
        let t := sp.reverse.dropWhile (fun x => !(x = ' '))
        if 2 ≤ t.length then some t.length else none
    | [] =>
      let t := sp.reverse.dropWhile (fun x => !(x = ' '))
      if 2 ≤ t.length then some t.length else none

def areaKwTail (kw : Txt) (s : Txt) : Option Nat :=
  match stripTokCI kw s with
  | none => none
  | some rest =>
    match areaTailLen rest with
    | none => none
    | some m => some (kw.length + m)

/-- One attempt of `/(?:in|area|compound|منطقة|في|التجمع|المعادي|الشيخ زايد)\s+[\p{L}\d\- ]+/giu`
at the head of the suffix, alternatives in source order. -/
def areaMatchLen (s : Txt) : Option Nat :=
  (areaKwTail "in".toList s) <|> (areaKwTail "area".toList s) <|>
  (areaKwTail "compound".toList s) <|> (areaKwTail "منطقة".toList s) <|>
  (areaKwTail "في".toList s) <|> (areaKwTail "التجمع".toList s) <|>
  (areaKwTail "المعادي".toList s) <|> (areaKwTail "الشيخ زايد".toList s)

/-- Global scan counting non-overlapping area matches; every match consumes
at least one character, so the input length is enough fuel. -/
def areaScanF : Nat → Txt → Nat
  | 0, _ => 0
  | fuel + 1, s =>
    match areaMatchLen s with
    | some n => 1 + areaScanF fuel (s.drop n)
    | none =>
      match s with
      | [] => 0
      | _ :: rest => areaScanF fuel rest

def areaCount (s : Txt) : Nat := areaScanF (s.length + 1) s

/-- `(?:\d+[\).\-]|[-*•])` at the head of the suffix, with consumed length. -/
def sepBulletNum : Txt → Option Nat
  | [] => none
  | c :: rest =>
    if c.isDigit then
      match rest.dropWhile Char.isDigit with
      | p :: _ =>
        if numPunct p then some (1 + (rest.takeWhile Char.isDigit).length + 1)
        else none
      | [] => none
    else if bulletChar c then some 1 else none

/-- `\s*(?:\d+[\).\-]|[-*•])`: no whitespace character can start the closing
alternation, so the greedy `\s*` never backtracks. -/
def sepTail (s : Txt) : Option Nat :=
  match sepBulletNum (s.dropWhile jsSpace) with
  | some k => some ((s.takeWhile jsSpace).length + k)
  | none => none

/-- `(?:^|\n)\s*(?:\d+[\).\-]|[-*•])` at one position of a multiline scan:
the zero-width `^` alternative first when the position starts a line, then
the newline-consuming alternative. -/
def sepHitLen (atStart : Bool) (s : Txt) : Option Nat :=
  match (if atStart then sepTail s else none) with
  | some n => some n
  | none =>
    match s with
    | c :: rest =>
      if c = '\n' then
        match sepTail rest with
        | some m => some (m + 1)
        | none => none
      else none
    | [] => none

def sepScanF : Nat → Bool → Txt → Nat
  | 0, _, _ => 0
  | fuel + 1, atStart, s =>
    match sepHitLen atStart s with
    | some n => 1 + sepScanF fuel false (s.drop n)
    | none =>
      match s with
      | [] => 0
      | c :: rest => sepScanF fuel (c = '\n') rest

def sepCount (s : Txt) : Nat := sepScanF (s.length + 1) true s

/-- Consumed length of the block separator `/\n\s*\n+/` at the head of the
suffix: a newline, then greedy whitespace backtracked to its last newline,
then the final newline run (a single newline once the last one is taken). -/
def blockSepLen : Txt → Option Nat
  | '\n' :: rest =>
    let w := rest.takeWhile jsSpace
    let t := w.reverse.dropWhile (fun x => !(x = '\n'))
    if t.isEmpty then none else some (1 + t.length)
  | _ => none

def splitBlocksF : Nat → Txt → Txt → List Txt
  | 0, s, acc => [acc.reverse ++ s]
  | fuel + 1, s, acc =>
    match blockSepLen s with
    | some n => acc.reverse :: splitBlocksF fuel (s.drop n) []
    | none =>
      match s with
      | [] => [acc.reverse]
      | c :: rest => splitBlocksF fuel rest (acc ++ [c])

def splitBlocks (s : Txt) : List Txt := splitBlocksF (s.length + 1) s []

/-- `heuristicSplitListings`. -/
def heuristicSplitListings (rawText : Txt) : MultiListingResult :=
  let normalized := normalizeDetectedText rawText
  let lines := ((splitRuns '\n' rawText).map jsTrim).filter (fun s => !s.isEmpty)
  let numbered := ((splitNumbered rawText).map jsTrim).filter (fun s => 20 < s.length)
  let priceMatches := priceCount normalized
  let areaMatches := areaCount normalized
  let separatorHits := sepCount rawText
  if 2 ≤ numbered.length ∧
      (2 ≤ priceMatches ∨ 2 ≤ separatorHits ∨ 4 ≤ lines.length) then
    { multi_listing := true, segments := numbered.take 10 }
  else if 4 ≤ lines.length ∧ 2 ≤ priceMatches ∧ 2 ≤ areaMatches then
    let blocks := ((splitBlocks rawText).map jsTrim).filter (fun s => 20 < s.length)
    if 2 ≤ blocks.length then { multi_listing := true, segments := blocks.take 10 }
    else { multi_listing := false, segments := [] }
  else { multi_listing := false, segments := [] }

structure MultiListingPayload where
  multi_listing : Bool
  segments : List Txt

def allStrings : List JVal → Option (List Txt)
  | [] => some []
  | .str s :: rest => (allStrings rest).map (fun t => s :: t)
  | _ => none

/-- `multiListingSchema.parse`: `multi_listing` a required boolean,
`segments` an array of strings defaulting to `[]` when absent. -/
def multiListingParse (v : JVal) : Except String MultiListingPayload :=
  match v with
  | .obj o =>
    match jget o "multi_listing" with
    | some (.bool b) =>
      match jget o "segments" with
      | none => .ok ⟨b, []⟩
      | some (.arr vs) =>
        match allStrings vs with
        | some ss => .ok ⟨b, ss⟩
        | none => .error "invalid segments"
      | some _ => .error "invalid segments"
    | _ => .error "invalid multi_listing"
  | _ => .error "invalid payload"

/-- `detectMultipleListings`, with the upstream model's reply as an explicit
payload: the heuristic first, else the model's segmentation re-normalized
and filtered to non-empty segments, accepted when more than one remains. -/
def detectMultipleListings (rawText : Txt) (modelPayload : JVal) :
    Except String MultiListingResult :=
  let heuristic := heuristicSplitListings rawText
  if heuristic.multi_listing then .ok heuristic
  else
    match multiListingParse modelPayload with
    | .error e => .error e
    | .ok parsed =>
      let segments := (parsed.segments.map (fun s => normalizeDetectedText s)).filter
        (fun s => !s.isEmpty)
      .ok { multi_listing := parsed.multi_listing && decide (1 < segments.length),
            segments := segments }

/-! ### Claim C9: the segmenter's 10-segment cap -/

def c9payloadBig : JVal :=
  .obj [("multi_listing", .bool true),
        ("segments", .arr (List.replicate 12 (.str "aaa".toList)))]

unseal currencyLatin currencyArabic punctCollapse in
/-- C9 counterexample: the 10-segment cap holds only on the heuristic path.
On the input `"hello"` the heuristic is inconclusive, and a model reply
carrying twelve non-empty segments flows through the fallback uncapped: the
segmenter returns all twelve segments. -/
theorem detectMultipleListings_over_cap_cex :
    (detectMultipleListings "hello".toList c9payloadBig).map
      (fun r => r.segments.length) = .ok 12 := by rfl

/-- C9 amended: the heuristic path caps its output at 10 segments for every
raw input (both the numbered split and the blank-line blocks are sliced);
the model-fallback path, taken exactly when the heuristic is inconclusive,
returns the model's segments re-normalized and filtered to the non-empty
ones with no cap applied. -/
theorem segmenter_cap :
    (∀ raw : Txt, (heuristicSplitListings raw).segments.length ≤ 10) ∧
    (∀ (raw : Txt) (payload : JVal) (r : MultiListingResult),
      (heuristicSplitListings raw).multi_listing = false →
      detectMultipleListings raw payload = .ok r →
      ∃ p, multiListingParse payload = .ok p ∧
        r.segments = (p.segments.map (fun s => normalizeDetectedText s)).filter
          (fun s => !s.isEmpty)) := by
  constructor
  · intro raw
    simp only [heuristicSplitListings]
    repeat' split
    all_goals simp
    all_goals omega
  · intro raw payload r hm hres
    cases hp : multiListingParse payload with
    | error e =>
      simp only [detectMultipleListings, hm, hp] at hres
      exact Except.noConfusion hres
    | ok p =>
      simp only [detectMultipleListings, hm, hp] at hres
      refine ⟨p, rfl, ?_⟩
      have h := Except.ok.inj hres
      rw [← h]

def c9payload : JVal :=
  .obj [("multi_listing", .bool true),
        ("segments", .arr [.str "first one".toList, .str "second one".toList])]

def c9res : MultiListingResult :=
  match detectMultipleListings "hello".toList c9payload with
  | .ok r => r
  | .error _ => ⟨false, []⟩

unseal currencyLatin currencyArabic punctCollapse in
/-- Witness for the segmenter theorem: the heuristic output on `"hello"` is
within the cap, and the fallback on a two-segment model reply returns
exactly the normalized non-empty segments. -/
theorem segmenter_cap_witness :
    (heuristicSplitListings "hello".toList).segments.length ≤ 10 ∧
    ∃ p, multiListingParse c9payload = .ok p ∧
      c9res.segments = (p.segments.map (fun s => normalizeDetectedText s)).filter
        (fun s => !s.isEmpty) :=
  ⟨segmenter_cap.1 "hello".toList,
   segmenter_cap.2 "hello".toList c9payload c9res (by decide) (by rfl)⟩

end CRM
